import Mathlib

/-!
Verification development for the nwtc-wisdem repository.

Shallow embedding of three source files over exact rational arithmetic:
  - wisdem/aeroelasticse/Turbsim_mdao/visualization/bts_read.py
  - wisdem/rotorse/rotor_aeropower.py
  - wisdem/orbit/manager.py

Machine floats are modelled as exact rationals; numpy float32/int16/int32
header fields are decoded bit-exactly from their byte patterns.  External
numerical routines (the CCBlade aerodynamic oracle and the scipy
optimizers) are modelled as function parameters, as the source treats
them as black boxes.
-/

/-- Pointwise update of a natural-indexed rational array, modelling an
in-place numpy element assignment. -/
def upd (f : ℕ → ℚ) (i : ℕ) (x : ℚ) : ℕ → ℚ :=
  fun j => if j = i then x else f j

/-- Exact rational value of the IEEE-754 double constant numpy.pi. -/
def piQ : ℚ := 884279719003555 / 281474976710656

/-- Rational ceiling returned as a rational, modelling python math.ceil
followed by use of the integer in rational arithmetic. -/
def ceilQ (x : ℚ) : ℚ := ((⌈x⌉ : ℤ) : ℚ)

/-- Maximum of a list of rationals; python max(list) raises on an empty
list, which callers below rule out, so the empty case is a junk value. -/
def maxListD : List ℚ → ℚ
  | [] => 0
  | x :: xs => xs.foldl max x

/-! ## Embedding of bts_read.py

The script reads a little-endian binary TurbSim file.  The byte stream is
modelled as a function from byte offset to byte value.  Offsets follow the
sequence of fread calls in the script: int16 tag at 0, then int32 nz at 2,
int32 ny at 6, int32 ntwr at 10, int32 nt at 14, six float32 scalars at
18..41, three float32 (slope, offset) pairs at 42..65, int32 nchar at 66,
nchar description bytes at 70, then the int16 sample blocks. -/

/-- Little-endian byte k of a natural number. -/
def byteAt (x k : ℕ) : ℕ := x / 256 ^ k % 256

/-- Read a little-endian 16-bit unsigned pattern at a byte offset. -/
def readU16 (s : ℕ → ℕ) (off : ℕ) : ℕ := s off + 256 * s (off + 1)

/-- Read a little-endian 32-bit unsigned pattern at a byte offset. -/
def readU32 (s : ℕ → ℕ) (off : ℕ) : ℕ :=
  s off + 256 * s (off + 1) + 65536 * s (off + 2) + 16777216 * s (off + 3)

/-- Two's-complement interpretation of a 16-bit pattern (numpy int16). -/
def toInt16 (n : ℕ) : ℤ := if n < 32768 then (n : ℤ) else (n : ℤ) - 65536

/-- Two's-complement interpretation of a 32-bit pattern (numpy int32). -/
def toInt32 (n : ℕ) : ℤ :=
  if n < 2147483648 then (n : ℤ) else (n : ℤ) - 4294967296

/-- Exact rational value of an IEEE-754 binary32 bit pattern (numpy
float32).  Patterns with exponent field 255 (infinities and NaNs) are out
of the modelled domain and fall through to the normal-number formula. -/
def ratOfFloat32 (w : ℕ) : ℚ :=
  let s : ℕ := w / 2 ^ 31 % 2
  let e : ℕ := w / 2 ^ 23 % 256
  let m : ℕ := w % 2 ^ 23
  let sign : ℚ := if s = 1 then -1 else 1
  if e = 0 then sign * m / 2 ^ 149
  else
    if e ≤ 150 then sign * (2 ^ 23 + m) / 2 ^ (150 - e)
    else sign * (2 ^ 23 + m) * 2 ^ (e - 150)

/-- Decoded header fields of a .bts stream, in the script's variable
names.  tmp is the format tag; the float32 fields are decoded to exact
rationals. -/
structure BtsHeader where
  tmp : ℤ
  nz : ℤ
  ny : ℤ
  ntwr : ℤ
  nt : ℤ
  dz : ℚ
  dy : ℚ
  dtQ : ℚ
  mffws : ℚ
  zHub : ℚ
  z1 : ℚ
  slopeU : ℚ
  offsetU : ℚ
  slopeV : ℚ
  offsetV : ℚ
  slopeW : ℚ
  offsetW : ℚ
deriving DecidableEq

/-- Header decode, mirroring the fread sequence of bts_read.py lines
18-38: the format tag is int16, then nz is read BEFORE ny. -/
def btsHeader (s : ℕ → ℕ) : BtsHeader :=
  { tmp := toInt16 (readU16 s 0)
    nz := toInt32 (readU32 s 2)
    ny := toInt32 (readU32 s 6)
    ntwr := toInt32 (readU32 s 10)
    nt := toInt32 (readU32 s 14)
    dz := ratOfFloat32 (readU32 s 18)
    dy := ratOfFloat32 (readU32 s 22)
    dtQ := ratOfFloat32 (readU32 s 26)
    mffws := ratOfFloat32 (readU32 s 30)
    zHub := ratOfFloat32 (readU32 s 34)
    z1 := ratOfFloat32 (readU32 s 38)
    slopeU := ratOfFloat32 (readU32 s 42)
    offsetU := ratOfFloat32 (readU32 s 46)
    slopeV := ratOfFloat32 (readU32 s 50)
    offsetV := ratOfFloat32 (readU32 s 54)
    slopeW := ratOfFloat32 (readU32 s 58)
    offsetW := ratOfFloat32 (readU32 s 62) }

/-- Vslope indexed by velocity component k, as the script's 3-vector. -/
def btsSlope (h : BtsHeader) (k : ℕ) : ℚ :=
  if k = 0 then h.slopeU else if k = 1 then h.slopeV else h.slopeW

/-- Voffset indexed by velocity component k. -/
def btsOffset (h : BtsHeader) (k : ℕ) : ℚ :=
  if k = 0 then h.offsetU else if k = 1 then h.offsetV else h.offsetW

/-- The int32 description length nchar read at offset 66. -/
def btsNChar (s : ℕ → ℕ) : ℤ := toInt32 (readU32 s 66)

/-- Byte offset of the first velocity sample: the description's nchar
ASCII bytes follow the header and are consumed before the sample blocks. -/
def btsDataStart (s : ℕ → ℕ) : ℕ := 70 + (btsNChar s).toNat

/-- Decoded velocity value at (it, k, iy, iz), mirroring the loop of
bts_read.py lines 52-59: each time step holds nv = 3*ny*nz int16 samples
with component index fastest, then iy, then iz, and each raw sample is
scaled as (raw - Voffset[k]) / Vslope[k]. -/
def btsVelocity (s : ℕ → ℕ) (it k iy iz : ℕ) : ℚ :=
  let h := btsHeader s
  let ny := h.ny.toNat
  let nz := h.nz.toNat
  let nv := 3 * ny * nz
  let ip := (iz * ny + iy) * 3 + k
  let raw := toInt16 (readU16 s (btsDataStart s + 2 * (it * nv + ip)))
  ((raw : ℚ) - btsOffset h k) / btsSlope h k

/-- Raw field patterns of a .bts file to be serialized: 16-bit tag
pattern, 32-bit integer and float32 patterns, description bytes, and
16-bit sample patterns indexed by flattened sample position. -/
structure BtsFileSpec where
  tag : ℕ
  nz : ℕ
  ny : ℕ
  ntwr : ℕ
  nt : ℕ
  dz : ℕ
  dy : ℕ
  dtQ : ℕ
  mffws : ℕ
  zHub : ℕ
  z1 : ℕ
  slopeU : ℕ
  offsetU : ℕ
  slopeV : ℕ
  offsetV : ℕ
  slopeW : ℕ
  offsetW : ℕ
  desc : List ℕ
  samples : ℕ → ℕ

/-- The 70 header bytes of the layout bts_read.py actually consumes
(nz stored before ny); offsets beyond 69 are not used. -/
def btsHeaderBytes (f : BtsFileSpec) : ℕ → ℕ := fun off =>
  if off < 2 then byteAt f.tag off
  else if off < 6 then byteAt f.nz (off - 2)
  else if off < 10 then byteAt f.ny (off - 6)
  else if off < 14 then byteAt f.ntwr (off - 10)
  else if off < 18 then byteAt f.nt (off - 14)
  else if off < 22 then byteAt f.dz (off - 18)
  else if off < 26 then byteAt f.dy (off - 22)
  else if off < 30 then byteAt f.dtQ (off - 26)
  else if off < 34 then byteAt f.mffws (off - 30)
  else if off < 38 then byteAt f.zHub (off - 34)
  else if off < 42 then byteAt f.z1 (off - 38)
  else if off < 46 then byteAt f.slopeU (off - 42)
  else if off < 50 then byteAt f.offsetU (off - 46)
  else if off < 54 then byteAt f.slopeV (off - 50)
  else if off < 58 then byteAt f.offsetV (off - 54)
  else if off < 62 then byteAt f.slopeW (off - 58)
  else if off < 66 then byteAt f.offsetW (off - 62)
  else byteAt f.desc.length (off - 66)

/-- Serializer for the byte layout that bts_read.py actually consumes:
the 70 header bytes, the description bytes, then the 16-bit sample
patterns in little-endian pairs; used to state the round-trip
property. -/
def btsEncode (f : BtsFileSpec) : ℕ → ℕ := fun off =>
  if off < 70 then btsHeaderBytes f off
  else if off < 70 + f.desc.length then f.desc.getD (off - 70) 0
  else byteAt (f.samples ((off - (70 + f.desc.length)) / 2))
    ((off - (70 + f.desc.length)) % 2)

/-- A stream laid out in the field order stated by the specification,
with ny stored at offset 2 BEFORE nz at offset 6 (only the fields needed
to test the order are populated). -/
def btsClaimOrderStream (tag ny nz : ℕ) : ℕ → ℕ := fun off =>
  if off < 2 then byteAt tag off
  else if off < 6 then byteAt ny (off - 2)
  else if off < 10 then byteAt nz (off - 6)
  else 0

/-! ## Embedding of the drivetrain model (rotor_aeropower.py, CSMDrivetrain)

The polynomial mode passes the normalized power through smooth_abs and
smooth_min from wisdem.commonse.utilities.  Those helpers are not part of
the repository sources here, so they enter the model as function
parameters constrained only by the specification's description (smoothed
absolute value, smoothed minimum against 1.0). -/

/-- numpy.interp for a strictly increasing abscissa list, given as
(x, f) pairs: clamped to the end values, linear in between. -/
def npInterp (x : ℚ) : List (ℚ × ℚ) → ℚ
  | [] => 0
  | [(_, f1)] => f1
  | (x1, f1) :: (x2, f2) :: rest =>
    if x ≤ x1 then f1
    else if x ≤ x2 then f1 + (x - x1) * (f2 - f1) / (x2 - x1)
    else npInterp x ((x2, f2) :: rest)

/-- Drivetrain type variants recognised by CSMDrivetrain. -/
inductive DriveType where
  | GEARED
  | SINGLE_STAGE
  | MULTI_DRIVE
  | PM_DIRECT_DRIVE
  | CONSTANT_EFF
deriving DecidableEq

/-- Efficiency-table conventions recognised by CSMDrivetrain. -/
inductive DriveTableType where
  | RPM_EFF
  | RPM_ELEC
  | MECH_ELEC
  | MECH_EFF
deriving DecidableEq

/-- Fixed polynomial loss coefficients (constant, linear, quadratic)
keyed by drivetrain type, from CSMDrivetrain lines 557-580. -/
def driveCoeffs : DriveType → ℚ × ℚ × ℚ
  | .GEARED => (1289 / 100000, 851 / 10000, 0)
  | .SINGLE_STAGE => (1331 / 100000, 3655 / 100000, 6107 / 100000)
  | .MULTI_DRIVE => (1547 / 100000, 4463 / 100000, 579 / 10000)
  | .PM_DIRECT_DRIVE => (1007 / 100000, 2 / 100, 6899 / 100000)
  | .CONSTANT_EFF => (0, 7 / 100, 0)

/-- Modelled from the spec: smooth_abs and smooth_min live in
wisdem.commonse.utilities, which is not among the sources; the spec
describes them only as a smoothed absolute value (dx = 0.01) and a
smoothed minimum against 1.0 (pct_offset = 0.01).  They are therefore
parameters of the embedding, and theorems constrain them through an
approximation tolerance.  CSMDrivetrain returns (electrical power,
efficiency); a table value of none models an all-zero drivetrainEff
input (the `not np.any` test of line 555). -/
def CSMDrivetrain (sabs : ℚ → ℚ) (smin : ℚ → ℚ → ℚ)
    (aeroPower ratedPower Omega_rpm : ℚ) (drivetrainType : DriveType)
    (drivetrainEff : Option (List (ℚ × ℚ))) (driveTableType : DriveTableType) :
    ℚ × ℚ :=
  match drivetrainEff with
  | none =>
    let cfg := driveCoeffs drivetrainType
    let Pbar0 := aeroPower / ratedPower
    let Pbar1 := sabs Pbar0
    let Pbar := smin Pbar1 1
    let eff := 1 - (cfg.1 / Pbar + cfg.2.1 + cfg.2.2 * Pbar)
    (aeroPower * eff, eff)
  | some table =>
    let eff :=
      match driveTableType with
      | .RPM_EFF => npInterp Omega_rpm table
      | .RPM_ELEC => npInterp Omega_rpm table / aeroPower
      | .MECH_ELEC => npInterp aeroPower table / aeroPower
      | .MECH_EFF => npInterp aeroPower table
    (aeroPower * eff, eff)

/-! ## Embedding of RegulatedPowerCurve.compute (rotor_aeropower.py)

Only the power / rotor-speed / pitch path is embedded: the thrust,
torque, moment and coefficient outputs are written alongside it in the
source but never feed back into P, Omega or pitch, and no claim concerns
them.  The CCBlade aerodynamic oracle is an external collaborator and is
a function parameter returning the aerodynamic power; the drivetrain is
a function parameter drv with drv pa rpm standing for the electrical
power (CSMDrivetrain ... pa ... rpm ...).1 of the source, so all
theorems hold for every drivetrain configuration.  The scipy optimizers
(minimize_scalar, minimize slsqp, brentq with its bounded-minimization
fallback) are numeric black boxes modelled as solver functions receiving
the same data the source passes them. -/

/-- Scalar inputs of RegulatedPowerCurve.compute, under their source
names; regulation_reg_III is the Region 3 regulation option. -/
structure PCInputs where
  npc : ℕ
  control_Vin : ℚ
  control_Vout : ℚ
  control_ratedPower : ℚ
  control_minOmega : ℚ
  control_maxOmega : ℚ
  control_maxTS : ℚ
  control_tsr : ℚ
  control_pitch : ℚ
  Rtip : ℚ
  regulation_reg_III : Bool

/-- Results of the scipy optimizer calls made by compute.
pitch_opt models the bounded minimize_scalar of line 215 (arguments:
grid index, wind speed, rotor rpm, lower and upper pitch bound).
rated_slsqp models the slsqp search of line 254 (pitch bounds, speed
bounds, initial pitch, initial speed), returning none when the source
would fall back (failure or NaN).  rated_root models brentq of line 266
together with its bounded fallback of line 269 (speed bracket).
reg3_pitch models brentq of line 304 with its fallback of line 307
(grid index, wind speed, rotor rpm, previous pitch). -/
structure PCSolvers where
  pitch_opt : ℕ → ℚ → ℚ → ℚ → ℚ → ℚ
  rated_slsqp : ℚ → ℚ → ℚ → ℚ → ℚ → ℚ → Option (ℚ × ℚ)
  rated_root : ℚ → ℚ → ℚ
  reg3_pitch : ℕ → ℚ → ℚ → ℚ → ℚ

/-- A full context for one compute call: inputs, aerodynamic oracle
(wind speed, rotor rpm, pitch to aerodynamic power), drivetrain model
(aerodynamic power, rotor rpm to electrical power), solvers. -/
structure PCtx where
  inp : PCInputs
  oracle : ℚ → ℚ → ℚ → ℚ
  drv : ℚ → ℚ → ℚ
  solv : PCSolvers

/-- Conversion from rad/s to rpm as written in the source (* 30 / pi). -/
def rs2rpmQ (w : ℚ) : ℚ := w * 30 / piQ

/-- The uniform wind grid numpy.linspace(Vin, Vout, npc) of line 138. -/
def pcUhub (c : PCtx) (i : ℕ) : ℚ :=
  c.inp.control_Vin + i * (c.inp.control_Vout - c.inp.control_Vin) / ((c.inp.npc : ℚ) - 1)

/-- Tip-speed-ratio implied rotor speed of line 161 (rad/s). -/
def pcOmega_tsr (c : PCtx) (i : ℕ) : ℚ := pcUhub c i * c.inp.control_tsr / c.inp.Rtip

/-- Maximum rotor speed of line 164: min of tip-speed and control limit. -/
def pcOmega_max (c : PCtx) : ℚ :=
  min (c.inp.control_maxTS / c.inp.Rtip) (c.inp.control_maxOmega * piQ / 30)

/-- Minimum rotor speed limit in rad/s. -/
def pcOmega_min (c : PCtx) : ℚ := c.inp.control_minOmega * piQ / 30

/-- Clamped baseline rotor speed schedule of line 167 (rad/s). -/
def pcOmega0 (c : PCtx) (i : ℕ) : ℚ :=
  max (min (pcOmega_tsr c i) (pcOmega_max c)) (pcOmega_min c)

/-- Baseline aerodynamic power of line 171 (vectorized oracle call at
the initial pitch). -/
def pcPaero0 (c : PCtx) (i : ℕ) : ℚ :=
  c.oracle (pcUhub c i) (rs2rpmQ (pcOmega0 c i)) c.inp.control_pitch

/-- Baseline electrical power of line 172. -/
def pcP0 (c : PCtx) (i : ℕ) : ℚ := c.drv (pcPaero0 c i) (rs2rpmQ (pcOmega0 c i))

/-- First baseline grid index with electrical power at or above rated
(np.nonzero of line 177). -/
def pcRegionIdx (c : PCtx) : Option ℕ :=
  (List.range c.inp.npc).find? (fun i => decide (c.inp.control_ratedPower ≤ pcP0 c i))

/-- Initial Region 3 start index i_3 of lines 178-183. -/
def pcI3init (c : PCtx) : ℕ :=
  match pcRegionIdx c with
  | some j => j + 1
  | none => c.inp.npc

/-- Whether the baseline curve reaches rated power (region3 flag). -/
def pcRegion3 (c : PCtx) : Bool := (pcRegionIdx c).isSome

/-- Rated wind speed guess of lines 194-197, interpolating the baseline
aerodynamic power curve when the last point exceeds rated power. -/
def pcUratedGuess (c : PCtx) : ℚ :=
  if c.inp.control_ratedPower < pcPaero0 c (c.inp.npc - 1) then
    npInterp c.inp.control_ratedPower
      ((List.range c.inp.npc).map (fun i => (pcPaero0 c i, pcUhub c i)))
  else pcUhub c (c.inp.npc - 1)

/-- Initial rated index of line 198: first grid index at or above the
guessed rated speed.  The default branch models the unreachable case in
which no index qualifies (the guess never exceeds the last grid point on
the data considered; python would raise IndexError there). -/
def pcIratedInit (c : PCtx) : ℕ :=
  ((List.range c.inp.npc).find? (fun i => decide (pcUratedGuess c ≤ pcUhub c i))).getD c.inp.npc

/-- Mutable state of the Region 2 forward sweep (lines 207-232): the
pitch / power arrays, the Region 2.5 flag and the i_3 / i_rated indices,
plus a flag recording that the sweep broke out early. -/
structure R2State where
  pitch : ℕ → ℚ
  P_aero : ℕ → ℚ
  P : ℕ → ℚ
  region2p5 : Bool
  i3 : ℕ
  irated : ℕ
  broke : Bool

/-- State before the Region 2 sweep: the pitch array is the constant
control pitch (line 150), powers are the baseline evaluation. -/
def pcR2Init (c : PCtx) : R2State :=
  { pitch := fun _ => c.inp.control_pitch
    P_aero := pcPaero0 c
    P := pcP0 c
    region2p5 := false
    i3 := pcI3init c
    irated := pcIratedInit c
    broke := false }

/-- One iteration of the Region 2 sweep (lines 208-232): skip when the
rotor speed already follows the TSR schedule, otherwise optimize pitch
in a +-10 degree window around the previous solution, re-evaluate power,
note Region 2.5, and break out (recording i_3 and i_rated) the first
time power exceeds rated. -/
def pcR2Step (c : PCtx) (s : R2State) (i : ℕ) : R2State :=
  if s.broke then s
  else if pcOmega0 c i = pcOmega_tsr c i then s
  else
    let pitch0 := if i = 0 then s.pitch i else s.pitch (i - 1)
    let pnew := c.solv.pitch_opt i (pcUhub c i) (rs2rpmQ (pcOmega0 c i)) (pitch0 - 10) (pitch0 + 10)
    let pa := c.oracle (pcUhub c i) (rs2rpmQ (pcOmega0 c i)) pnew
    let pe := c.drv pa (rs2rpmQ (pcOmega0 c i))
    let s1 : R2State :=
      { pitch := upd s.pitch i pnew
        P_aero := upd s.P_aero i pa
        P := upd s.P i pe
        region2p5 := s.region2p5 ||
          (decide (pcOmega0 c i = pcOmega_max c) && decide (pe < c.inp.control_ratedPower))
        i3 := s.i3
        irated := s.irated
        broke := false }
    if c.inp.control_ratedPower < pe then { s1 with i3 := i + 1, irated := i, broke := true }
    else s1

/-- The full Region 2 sweep over range(i_3) with the initial i_3. -/
def pcR2 (c : PCtx) : R2State := (List.range (pcI3init c)).foldl (pcR2Step c) (pcR2Init c)

/-- State after the rated-speed solve (lines 236-281): arrays plus the
rotor speed schedule after the rated clamp and the solved rated speed. -/
structure RatedState where
  pitch : ℕ → ℚ
  P_aero : ℕ → ℚ
  P : ℕ → ℚ
  Omega : ℕ → ℚ
  Urated : ℚ

/-- The rated solve of lines 236-278.  When i_rated is interior, either
the slsqp search (Region 2.5 seen) or the bracketed root solve fixes
(pitch, U_rated); the rotor speed from i_rated on is clamped to the
rated speed (line 273); power is re-evaluated at the rated point and
then overwritten with the rated power (line 278).  The python index
i-1 wraps to the last element when i_rated = 0. -/
def pcRated (c : PCtx) : RatedState :=
  let s := pcR2 c
  let i := s.irated
  if i + 1 < c.inp.npc then
    let prev := if i = 0 then c.inp.npc - 1 else i - 1
    let pu : ℚ × ℚ :=
      if s.region2p5 then
        match c.solv.rated_slsqp (min (s.pitch prev) (s.pitch (i + 1)))
            (max (s.pitch prev) (s.pitch (i + 1)))
            (pcUhub c prev) (pcUhub c (i + 1)) 0 (pcUhub c i) with
        | some (p, u) => (p, u)
        | none => (0, pcUratedGuess c)
      else (0, c.solv.rated_root (pcUhub c prev) (pcUhub c (i + 1)))
    let Omega_rated := min (pu.2 * c.inp.control_tsr / c.inp.Rtip) (pcOmega_max c)
    let Omega1 : ℕ → ℚ := fun j => if i ≤ j then min (pcOmega0 c j) Omega_rated else pcOmega0 c j
    let pa := c.oracle pu.2 (rs2rpmQ (Omega1 i)) pu.1
    let pe := c.drv pa (rs2rpmQ (Omega1 i))
    { pitch := upd s.pitch i pu.1
      P_aero := upd s.P_aero i pa
      P := upd (upd s.P i pe) i c.inp.control_ratedPower
      Omega := Omega1
      Urated := pu.2 }
  else
    { pitch := s.pitch
      P_aero := s.P_aero
      P := s.P
      Omega := pcOmega0 c
      Urated := pcUratedGuess c }

/-- The wind grid after line 281 stores the solved rated speed at the
rated index. -/
def pcUhub2 (c : PCtx) : ℕ → ℚ := upd (fun i => pcUhub c i) (pcR2 c).irated (pcRated c).Urated

/-- Arrays touched by the Region 3 block. -/
structure R3State where
  pitch : ℕ → ℚ
  P_aero : ℕ → ℚ
  P : ℕ → ℚ

/-- Region 3 arrays before the block, taken from the rated solve. -/
def pcR3Init (c : PCtx) : R3State :=
  { pitch := (pcRated c).pitch, P_aero := (pcRated c).P_aero, P := (pcRated c).P }

/-- One Region 3 regulation step (lines 301-313): root-find the pitch
holding rated power starting from the previous pitch, then re-evaluate
and store the resulting power.  The source line that would overwrite
P[i] with the rated power afterwards is commented out (line 313). -/
def pcR3Step (c : PCtx) (Omega Uhub2 : ℕ → ℚ) (s : R3State) (i : ℕ) : R3State :=
  let pitch0 := s.pitch (i - 1)
  let pnew := c.solv.reg3_pitch i (Uhub2 i) (rs2rpmQ (Omega i)) pitch0
  let pa := c.oracle (Uhub2 i) (rs2rpmQ (Omega i)) pnew
  let pe := c.drv pa (rs2rpmQ (Omega i))
  { pitch := upd s.pitch i pnew, P_aero := upd s.P_aero i pa, P := upd s.P i pe }

/-- The Region 3 block (lines 291-324): with regulation enabled, iterate
the pitch root-solve over range(i_3, npc); with it disabled, clamp the
power to rated and zero the pitch from i_3 on (the thrust, torque,
moment and coefficient overwrites of that branch are outside the
modelled outputs). -/
def pcR3 (c : PCtx) : R3State :=
  if pcRegion3 c = true then
    if c.inp.regulation_reg_III = true then
      (List.range' (pcR2 c).i3 (c.inp.npc - (pcR2 c).i3)).foldl
        (pcR3Step c (pcRated c).Omega (pcUhub2 c)) (pcR3Init c)
    else
      { pitch := fun j => if (pcR2 c).i3 ≤ j then 0 else (pcR3Init c).pitch j
        P_aero := (pcR3Init c).P_aero
        P := fun j => if (pcR2 c).i3 ≤ j then c.inp.control_ratedPower else (pcR3Init c).P j }
  else pcR3Init c

/-- Outputs of one compute call: the stored arrays (V is the wind grid
with the rated speed inserted, Omega is in rad/s and is emitted by the
source as Omega * 30 / pi), the final region indices and flags, and the
solved rated speed. -/
structure PCResult where
  V : ℕ → ℚ
  Omega : ℕ → ℚ
  pitch : ℕ → ℚ
  P : ℕ → ℚ
  P_aero : ℕ → ℚ
  i3 : ℕ
  irated : ℕ
  region3 : Bool
  region2p5 : Bool
  Urated : ℚ

/-- The full power-curve regulation solve of RegulatedPowerCurve.compute
(lines 127-356), assembled from the staged passes above. -/
def RegulatedPowerCurve.compute (c : PCtx) : PCResult :=
  { V := pcUhub2 c
    Omega := (pcRated c).Omega
    pitch := (pcR3 c).pitch
    P := (pcR3 c).P
    P_aero := (pcR3 c).P_aero
    i3 := (pcR2 c).i3
    irated := (pcR2 c).irated
    region3 := pcRegion3 c
    region2p5 := (pcR2 c).region2p5
    Urated := (pcRated c).Urated }

/-! ## Embedding of manager.py: configuration values and merge_dicts

Configuration dictionaries are nested string-keyed mappings whose
non-mapping values are opaque; they are modelled as association lists
over an inductive value type with an integer payload standing for any
atomic value.  Python dict assignment keeps the position of an existing
key, so insertion replaces in place and otherwise appends. -/

/-- A configuration value: an atomic (non-mapping) payload or a nested
mapping. -/
inductive CVal where
  | leaf : ℤ → CVal
  | node : List (String × CVal) → CVal

/-- Dictionary key lookup. -/
def dlookup : List (String × CVal) → String → Option CVal
  | [], _ => none
  | (k1, v1) :: rest, k => if k1 = k then some v1 else dlookup rest k

/-- Dictionary assignment: replace in place, else append. -/
def dinsert : List (String × CVal) → String → CVal → List (String × CVal)
  | [], k, v => [(k, v)]
  | (k1, v1) :: rest, k, v =>
    if k1 = k then (k1, v) :: rest else (k1, v1) :: dinsert rest k v

mutual

/-- One iteration of the merge loop of merge_dicts (lines 298-312):
for one key of right, recurse into mergeListR when both sides hold
mappings, otherwise assign when overwriting is allowed or the key is
absent. -/
def mergeEntry (overwrite : Bool) (left : List (String × CVal)) (k : String) :
    CVal → List (String × CVal)
  | .node rl =>
    match dlookup left k with
    | some (.node lv) => dinsert left k (.node (mergeListR overwrite lv rl))
    | some (.leaf _) => if overwrite then dinsert left k (.node rl) else left
    | none => dinsert left k (.node rl)
  | .leaf n =>
    match dlookup left k with
    | some _ => if overwrite then dinsert left k (.leaf n) else left
    | none => dinsert left k (.leaf n)
termination_by rv => sizeOf rv
decreasing_by simp_wf <;> omega

/-- The merge loop of merge_dicts over the keys of right (lines
298-314). -/
def mergeListR (overwrite : Bool) (left : List (String × CVal)) :
    List (String × CVal) → List (String × CVal)
  | [] => left
  | (k, rv) :: rest => mergeListR overwrite (mergeEntry overwrite left k rv) rest
termination_by r => sizeOf r
decreasing_by all_goals simp_wf <;> omega

end

/-- ProjectManager.merge_dicts (lines 278-314).  When add_keys is
false, right is restricted to the keys already present in left (python
iterates a set there; the iteration order is not observable in the
result because dict keys are unique). -/
def ProjectManager.merge_dicts (left right : List (String × CVal)) (overwrite add_keys : Bool) :
    List (String × CVal) :=
  mergeListR overwrite left
    (if add_keys then right else right.filter (fun kv => (dlookup left kv.1).isSome))

/-- ProjectManager.run_design_phase (lines 479-522) reduced to its
effect on the shared configuration: the phase's design_result is merged
into config with overwrite=False.  The phase execution itself, the
cost/time bookkeeping and detailed outputs are external to the claim and
are summarized by the design_result environment. -/
def ProjectManager.run_design_phase (design_result : String → List (String × CVal))
    (config : List (String × CVal)) (name : String) : List (String × CVal) :=
  ProjectManager.merge_dicts config (design_result name) false true

/-- ProjectManager.run_all_design_phases (lines 471-477): design phases
run sequentially, each merging into the configuration seen by the next. -/
def ProjectManager.run_all_design_phases (design_result : String → List (String × CVal))
    (config : List (String × CVal)) (phase_list : List String) : List (String × CVal) :=
  phase_list.foldl (ProjectManager.run_design_phase design_result) config

/-- Lookup along a key path through nested mappings. -/
def dlookupPath : CVal → List String → Option CVal
  | v, [] => some v
  | .node l, k :: ks =>
    match dlookup l k with
    | some v => dlookupPath v ks
    | none => none
  | .leaf _, _ :: _ => none

/-! ## Embedding of manager.py: resolve_project_capacity -/

/-- The plant section of a project configuration (missing keys are
none). -/
structure PlantSection where
  capacity : Option ℚ
  num_turbines : Option ℚ
deriving DecidableEq

/-- The turbine section of a project configuration. -/
structure TurbineSection where
  turbine_rating : Option ℚ
deriving DecidableEq

/-- The parts of a project configuration read by
resolve_project_capacity. -/
structure CapacityConfig where
  plant : Option PlantSection
  turbine : Option TurbineSection
deriving DecidableEq

/-- Python truthiness of an optional numeric value: None and 0 are
falsy, which is what the all(...) tests of the source check. -/
def truthy : Option ℚ → Bool
  | none => false
  | some x => decide (x ≠ 0)

/-- ProjectManager.resolve_project_capacity (lines 193-243): checks the
relation capacity = rating * num_turbines when all three are supplied
(raising AttributeError otherwise), and fills in whichever single value
can be computed from the other two; math.ceil is applied only when
computing num_turbines. -/
def ProjectManager.resolve_project_capacity (config : CapacityConfig) :
    Except String CapacityConfig :=
  let project_capacity := config.plant.bind (fun p => p.capacity)
  let turbine_rating := config.turbine.bind (fun t => t.turbine_rating)
  let num_turbines := config.plant.bind (fun p => p.num_turbines)
  if truthy project_capacity && truthy turbine_rating && truthy num_turbines then
    if project_capacity.getD 0 ≠ turbine_rating.getD 0 * num_turbines.getD 0 then
      .error "Input and calculated project capacity do not match."
    else .ok config
  else if truthy project_capacity && truthy turbine_rating then
    match config.plant with
    | some p =>
      .ok { config with
            plant := some { p with
              num_turbines := some (ceilQ (project_capacity.getD 0 / turbine_rating.getD 0)) } }
    | none => .error "KeyError"
  else if truthy project_capacity && truthy num_turbines then
    let rating := project_capacity.getD 0 / num_turbines.getD 0
    match config.turbine with
    | some t => .ok { config with turbine := some { t with turbine_rating := some rating } }
    | none => .ok { config with turbine := some { turbine_rating := some rating } }
  else if truthy num_turbines && truthy turbine_rating then
    match config.plant with
    | some p =>
      .ok { config with
            plant := some { p with
              capacity := some (turbine_rating.getD 0 * num_turbines.getD 0) } }
    | none => .error "KeyError"
  else .ok config

/-! ## Embedding of manager.py: phase name resolution -/

/-- The registered phase classes of ProjectManager (_install_phases and
_design_phases, lines 51-68). -/
inductive OrbitPhaseCls where
  | MonopileInstallation
  | TurbineInstallation
  | OffshoreSubstationInstallation
  | ArrayCableInstallation
  | ExportCableInstallation
  | ScourProtectionInstallation
  | ProjectDevelopment
  | MonopileDesign
  | ArraySystemDesign
  | CustomArraySystemDesign
  | ExportSystemDesign
  | ScourProtectionDesign
  | OffshoreSubstationDesign
deriving DecidableEq

/-- ProjectManager.phase_dict (lines 267-276): class name to class, the
install classes merged with the design classes. -/
def ProjectManager.phase_dict : List (String × OrbitPhaseCls) :=
  [("MonopileInstallation", .MonopileInstallation),
   ("TurbineInstallation", .TurbineInstallation),
   ("OffshoreSubstationInstallation", .OffshoreSubstationInstallation),
   ("ArrayCableInstallation", .ArrayCableInstallation),
   ("ExportCableInstallation", .ExportCableInstallation),
   ("ScourProtectionInstallation", .ScourProtectionInstallation),
   ("ProjectDevelopment", .ProjectDevelopment),
   ("MonopileDesign", .MonopileDesign),
   ("ArraySystemDesign", .ArraySystemDesign),
   ("CustomArraySystemDesign", .CustomArraySystemDesign),
   ("ExportSystemDesign", .ExportSystemDesign),
   ("ScourProtectionDesign", .ScourProtectionDesign),
   ("OffshoreSubstationDesign", .OffshoreSubstationDesign)]

/-- The registered class names, in registry order. -/
def phaseNames : List String := ProjectManager.phase_dict.map Prod.fst

/-- The token of a configured phase name before the first underscore or
space: re.split of line 261 splits on every such separator and the
source keeps element [0]. -/
def firstPhaseToken (s : String) : String :=
  ⟨s.data.takeWhile (fun ch => !(ch == '_' || ch == ' '))⟩

/-- ProjectManager.find_key_match (lines 245-265): look the first token
up in the phase dictionary, returning none on a miss. -/
def ProjectManager.find_key_match (target : String) : Option OrbitPhaseCls :=
  ProjectManager.phase_dict.lookup (firstPhaseToken target)

/-- ProjectManager.get_phase_class (lines 448-469): raise PhaseNotFound
(carrying the configured name) exactly when find_key_match misses. -/
def ProjectManager.get_phase_class (phase : String) : Except String OrbitPhaseCls :=
  match ProjectManager.find_key_match phase with
  | some c => .ok c
  | none => .error phase

/-! ## Embedding of manager.py: the installation-phase scheduler

run_install_phase is reduced to its scheduling effect: it records the
phase start in phase_starts and the phase duration (the executed phase's
total_phase_time, supplied by an environment) in phase_times.  Costs,
logs and the optional catch_exceptions mode are outside the scheduling
claims. -/

/-- The per-run scheduler state: the phase_starts and phase_times
dictionaries. -/
structure SchedState where
  phase_starts : String → Option ℚ
  phase_times : String → Option ℚ

/-- Dictionary update for string-keyed rational maps. -/
def supd (f : String → Option ℚ) (k : String) (x : ℚ) : String → Option ℚ :=
  fun s => if s = k then some x else f s

/-- The state of a fresh ProjectManager: empty dictionaries. -/
def emptySched : SchedState :=
  { phase_starts := fun _ => none, phase_times := fun _ => none }

/-- Scheduling effect of ProjectManager.run_install_phase (lines
381-446): record the start and the executed phase's total time. -/
def ProjectManager.run_install_phase (dur : String → ℚ) (st : SchedState)
    (name : String) (start : ℚ) : SchedState :=
  { phase_starts := supd st.phase_starts name start
    phase_times := supd st.phase_times name (dur name) }

/-- ProjectManager.get_dependency_start_time (lines 634-650): target
start plus target elapsed time scaled by the completion fraction; none
models the KeyError on an unknown target. -/
def ProjectManager.get_dependency_start_time (st : SchedState) (target : String) (perc : ℚ) :
    Option ℚ :=
  match st.phase_starts target, st.phase_times target with
  | some s, some e => some (s + e * perc)
  | _, _ => none

/-- One pass of the for-loop of run_dependent_phases (lines 600-626):
entries whose target resolves are run (setting progress), entries whose
target raises KeyError are skipped without touching the state. -/
def depPass (dur : String → ℚ) :
    List (String × String × ℚ) → SchedState → Bool → SchedState × Bool
  | [], st, progress => (st, progress)
  | (name, target, perc) :: rest, st, progress =>
    match ProjectManager.get_dependency_start_time st target perc with
    | some start => depPass dur rest (ProjectManager.run_install_phase dur st name start) true
    | none => depPass dur rest st progress

/-- ProjectManager.run_dependent_phases (lines 586-632).  The while
body either raises PhaseDependenciesInvalid (phases nonempty and no
progress) or breaks unconditionally after the for-loop, so exactly one
pass over the dependent entries is executed. -/
def ProjectManager.run_dependent_phases (dur : String → ℚ)
    (phases : List (String × String × ℚ)) (st : SchedState) :
    Except (List (String × String × ℚ)) SchedState :=
  let r := depPass dur phases st false
  if phases ≠ [] ∧ r.2 = false then .error phases else .ok r.1

/-- A configured install-phase start: a numeric offset or a dependency
tuple (target phase, completion fraction).  Calendar-date strings need a
weather profile and are outside the modelled domain. -/
inductive InstallStart where
  | at_index : ℚ → InstallStart
  | after : String → ℚ → InstallStart
deriving DecidableEq

/-- Scheduler errors: the ValueError for a missing defined start, and
PhaseDependenciesInvalid carrying the dependent entries. -/
inductive ManagerErr where
  | valueErr : ManagerErr
  | depsInvalid : List (String × String × ℚ) → ManagerErr
deriving DecidableEq

/-- ProjectManager._parse_install_phase_values (lines 677-727) for
numeric and dependency entries: numeric starts are ceiled into the
defined set, 2-tuples go to the dependent set, and an empty defined set
raises ValueError. -/
def ProjectManager.parse_install_phase_values (phases : List (String × InstallStart)) :
    Except ManagerErr (List (String × ℚ) × List (String × String × ℚ)) :=
  let defined := phases.filterMap
    (fun kv => match kv.2 with | .at_index v => some (kv.1, ceilQ v) | _ => none)
  let depends := phases.filterMap
    (fun kv => match kv.2 with | .after t p => some (kv.1, t, p) | _ => none)
  if defined = [] then .error .valueErr else .ok (defined, depends)

/-- ProjectManager.run_multiple_phases_overlapping (lines 552-584): run
the defined entries at their starts, then the dependent pass.  The zero
offset of the source shifts only log timestamps, which are not
modelled. -/
def ProjectManager.run_multiple_phases_overlapping (dur : String → ℚ)
    (phases : List (String × InstallStart)) : Except ManagerErr SchedState :=
  match ProjectManager.parse_install_phase_values phases with
  | .error e => .error e
  | .ok (defined, depends) =>
    let st := defined.foldl
      (fun s kv => ProjectManager.run_install_phase dur s kv.1 kv.2) emptySched
    match ProjectManager.run_dependent_phases dur depends st with
    | .error l => .error (.depsInvalid l)
    | .ok st1 => .ok st1

/-- The serial loop of run_multiple_phases_in_serial: run each phase at
the running start, then advance it to ceil(start + time). -/
def serialGo (dur : String → ℚ) : List String → SchedState → ℚ → SchedState
  | [], st, _ => st
  | n :: rest, st, start =>
    serialGo dur rest (ProjectManager.run_install_phase dur st n start) (ceilQ (start + dur n))

/-- ProjectManager.run_multiple_phases_in_serial (lines 524-550),
starting from time 0 on a fresh state; the exceptional logs-is-None path
of catch mode is not modelled. -/
def ProjectManager.run_multiple_phases_in_serial (dur : String → ℚ) (phase_list : List String) :
    SchedState :=
  serialGo dur phase_list emptySched 0

/-- The start-time sequence described by the specification for serial
execution: the first phase starts at the given time, each next start is
the ceiling of the previous start plus the previous duration. -/
def serialStartFrom (dur : String → ℚ) : ℚ → List String → ℕ → ℚ
  | start, _, 0 => start
  | start, [], _ + 1 => start
  | start, n :: rest, i + 1 => serialStartFrom dur (ceilQ (start + dur n)) rest i

/-! ## Embedding of manager.py: ProjectProgress -/

/-- ProjectProgress.parse_logs (lines 1316-1323): the progress times
tagged with key k, in log order.  Python raises ValueError on an empty
result; the callers below test emptiness explicitly. -/
def ProjectProgress.parse_logs (data : List (String × ℚ)) (k : String) : List ℚ :=
  (data.filter (fun p => p.1 == k)).map Prod.snd

/-- ProjectProgress.chunk_max (lines 1325-1330): maxima of successive
n-sized chunks.  A zero chunk size would raise in python (range step 0)
and yields the junk value []. -/
def ProjectProgress.chunk_max : List ℚ → ℕ → List ℚ
  | [], _ => []
  | x :: xs, n =>
    if n = 0 then []
    else maxListD ((x :: xs).take n) :: ProjectProgress.chunk_max (xs.drop (n - 1)) n
termination_by l _ => l.length
decreasing_by simp_wf; omega

/-- ProjectProgress.chunk_len (lines 1332-1337): lengths of successive
n-sized chunks. -/
def ProjectProgress.chunk_len : List ℚ → ℕ → List ℕ
  | [], _ => []
  | x :: xs, n =>
    if n = 0 then []
    else ((x :: xs).take n).length :: ProjectProgress.chunk_len (xs.drop (n - 1)) n
termination_by l _ => l.length
decreasing_by simp_wf; omega

/-- ProjectProgress.complete_export_system (lines 1264-1274): the max
of the Export System and Offshore Substation completion times. -/
def ProjectProgress.complete_export_system (data : List (String × ℚ)) : Except String ℚ :=
  let exportSys := ProjectProgress.parse_logs data "Export System"
  let substations := ProjectProgress.parse_logs data "Offshore Substation"
  if exportSys = [] then .error "Export System"
  else if substations = [] then .error "Offshore Substation"
  else .ok (maxListD (exportSys ++ substations))

/-- ProjectProgress.complete_array_strings (lines 1276-1297): chunk the
substructure and turbine completion lists into blocks of
per_string = len(turbines) // len(strings), rounded up, zip them with
the string completion times (zip truncates to the shortest list), and
keep the per-block turbine counts. -/
def ProjectProgress.complete_array_strings (data : List (String × ℚ)) :
    Except String (List ℚ × List ℕ) :=
  let strings := ProjectProgress.parse_logs data "Array String"
  let subs := ProjectProgress.parse_logs data "Substructure"
  let turbines := ProjectProgress.parse_logs data "Turbine"
  if strings = [] then .error "Array String"
  else if subs = [] then .error "Substructure"
  else if turbines = [] then .error "Turbine"
  else
    let per_string := turbines.length / strings.length +
      (if turbines.length % strings.length ≠ 0 then 1 else 0)
    let subsC := ProjectProgress.chunk_max subs per_string
    let turbC := ProjectProgress.chunk_max turbines per_string
    let num_turbines := ProjectProgress.chunk_len turbines per_string
    .ok ((strings.zip (subsC.zip turbC)).map (fun p => max p.1 (max p.2.1 p.2.2)),
      num_turbines)

/-- ProjectProgress.energize_points (lines 1299-1314): each string time
from complete_array_strings joined by max with the shared export-system
completion time. -/
def ProjectProgress.energize_points (data : List (String × ℚ)) :
    Except String (List ℚ × List ℕ) :=
  match ProjectProgress.complete_export_system data with
  | .error e => .error e
  | .ok exportSys =>
    match ProjectProgress.complete_array_strings data with
    | .error e => .error e
    | .ok tt => .ok (tt.1.map (fun t => max t exportSys), tt.2)

/-! ## Concrete instances used by the claim counterexamples and
witnesses. -/

/-- An identity drivetrain: electrical power equals shaft power.  This
is realizable in the source as a table-mode CSMDrivetrain with a
constant unit-efficiency RPM-EFF table. -/
def drvId : ℚ → ℚ → ℚ := fun pa _ => pa

/-- A four-point aerodynamic oracle: at the baseline pitch the powers
over the grid 1, 2, 3, 4 are 5, 3, 9, 7; at any other pitch the power is
15/2. -/
def oracleC1 : ℚ → ℚ → ℚ → ℚ := fun U _ pit =>
  if pit = 0 then (if U = 1 then 5 else if U = 2 then 3 else if U = 3 then 9 else 7)
  else 15 / 2

/-- Solvers for the first instance: the Region 3 pitch root returns the
previous pitch plus one. -/
def solvC1 : PCSolvers :=
  { pitch_opt := fun _ _ _ _ _ => 0
    rated_slsqp := fun _ _ _ _ _ _ => none
    rated_root := fun lo _ => lo
    reg3_pitch := fun _ _ _ p0 => p0 + 1 }

/-- Context over a 4-point grid with rated power 8 and Region 3
regulation enabled; the wide speed limits keep the baseline schedule on
the TSR line, so the Region 2 sweep skips every point. -/
def ctxC1 : PCtx :=
  { inp := { npc := 4, control_Vin := 1, control_Vout := 4, control_ratedPower := 8,
             control_minOmega := 0, control_maxOmega := 1000000, control_maxTS := 100,
             control_tsr := 1, control_pitch := 0, Rtip := 1, regulation_reg_III := true }
    oracle := oracleC1
    drv := drvId
    solv := solvC1 }

/-- A three-point oracle whose power at the middle point jumps above
rated when the pitch moves off zero. -/
def oracleC3 : ℚ → ℚ → ℚ → ℚ := fun U _ pit =>
  if U = 1 then 5 else if U = 2 then (if pit = 0 then 6 else 9) else 9

/-- Solvers for the second instance: the pitch optimizer moves the
middle point to pitch 1, the rated root solve returns the lower bracket
end. -/
def solvC3 : PCSolvers :=
  { pitch_opt := fun i _ _ _ _ => if i = 1 then 1 else 0
    rated_slsqp := fun _ _ _ _ _ _ => none
    rated_root := fun lo _ => lo
    reg3_pitch := fun _ _ _ p0 => p0 + 1 }

/-- Context over a 3-point grid with rated power 8, a minimum rotor
speed of 5/2 rad/s (75/pi rpm) and Region 3 regulation enabled; the
sweep breaks at the middle point, so the rated clamp runs with a rated
speed of 1 rad/s. -/
def ctxC3 : PCtx :=
  { inp := { npc := 3, control_Vin := 1, control_Vout := 3, control_ratedPower := 8,
             control_minOmega := 75 / piQ, control_maxOmega := 1000000, control_maxTS := 100,
             control_tsr := 1, control_pitch := 0, Rtip := 1, regulation_reg_III := true }
    oracle := oracleC3
    drv := drvId
    solv := solvC3 }

/-- Phase durations for the scheduler instances. -/
def durC2 : String → ℚ := fun n => if n = "A" then 10 else if n = "C" then 4 else 7

/-- Dependent chain: A defined at 0, B depends on C, C depends on A;
listed with B before C. -/
def phasesC2 : List (String × InstallStart) :=
  [("A", .at_index 0), ("B", .after "C" 1), ("C", .after "A" 1)]

/-- Resolved start of a phase in an overlapping-run result (none when
the run failed or the phase never ran). -/
def overlapStarts (r : Except ManagerErr SchedState) (k : String) : Option ℚ :=
  match r with
  | .ok st => st.phase_starts k
  | .error _ => none

/-- Whether an overlapping run raised. -/
def overlapIsError : Except ManagerErr SchedState → Bool := fun r =>
  match r with
  | .error _ => true
  | .ok _ => false

/-- Durations for the serial witness. -/
def durC8 : String → ℚ := fun n => if n = "a" then 3 / 2 else 1

/-- Progress log for the energize-point instances: two array strings,
three substructures, three turbines completing at 1, 2, 3, and the
export system entries. -/
def dataC4 : List (String × ℚ) :=
  [("Array String", 0), ("Array String", 0),
   ("Substructure", 0), ("Substructure", 0), ("Substructure", 0),
   ("Turbine", 1), ("Turbine", 2), ("Turbine", 3),
   ("Export System", 0), ("Offshore Substation", 0)]

/-- The ok payload of an energize-point result. -/
def exOkPair : Except String (List ℚ × List ℕ) → Option (List ℚ × List ℕ)
  | .ok x => some x
  | .error _ => none

/-- Log positions assigned to string i under a round-robin deal of len
items over ns strings. -/
def rrAssignIdx (len ns i : ℕ) : List ℕ :=
  (List.range len).filter (fun j => j % ns = i)

/-- Max completion time of the items round-robin-assigned to string i. -/
def rrMax (l : List ℚ) (ns i : ℕ) : ℚ :=
  maxListD ((rrAssignIdx l.length ns i).map (fun j => l.getD j 0))

/-- Formalization of the claim's words for C4: turbines (and the
substructure subset) are round-robin-assigned to strings by count, so
string i receives the items at log positions congruent to i modulo the
number of strings; each string's energize time is the max of its own
completion, its assigned maxima and the shared export completion. -/
def energizeRoundRobin (data : List (String × ℚ)) : Except String (List ℚ × List ℕ) :=
  let exportL := ProjectProgress.parse_logs data "Export System"
  let substations := ProjectProgress.parse_logs data "Offshore Substation"
  if exportL = [] then .error "Export System"
  else if substations = [] then .error "Offshore Substation"
  else
    let exportSys := maxListD (exportL ++ substations)
    let strings := ProjectProgress.parse_logs data "Array String"
    let subs := ProjectProgress.parse_logs data "Substructure"
    let turbines := ProjectProgress.parse_logs data "Turbine"
    if strings = [] then .error "Array String"
    else if subs = [] then .error "Substructure"
    else if turbines = [] then .error "Turbine"
    else
      let ns := strings.length
      .ok ((List.range ns).map (fun i =>
            max (strings.getD i 0)
              (max (max (rrMax subs ns i) (rrMax turbines ns i)) exportSys)),
        (List.range ns).map (fun i => (rrAssignIdx turbines.length ns i).length))

/-- Ceiling division on naturals, written as the quotient plus one when
a remainder is left. -/
def natCeilDiv (a b : ℕ) : ℕ := a / b + if a % b ≠ 0 then 1 else 0

/-- The i-th contiguous block of size per of a completion list. -/
def sliceTake (l : List ℚ) (per i : ℕ) : List ℚ := (l.drop (per * i)).take per

/-- The block size used by the energize-point derivation: the number of
turbines per string, rounded up. -/
def c4per (data : List (String × ℚ)) : ℕ :=
  natCeilDiv (ProjectProgress.parse_logs data "Turbine").length
    (ProjectProgress.parse_logs data "Array String").length

/-- Configuration with key a holding a nested mapping and key b a
plain value. -/
def cfgC6 : List (String × CVal) := [("a", .node [("x", .leaf 1)]), ("b", .leaf 5)]

/-- A design result writing a conflicting nested value under a/x, a new
nested value under a/y and a new top-level key c. -/
def drC6 : String → List (String × CVal) := fun _ =>
  [("a", .node [("x", .leaf 2), ("y", .leaf 3)]), ("c", .leaf 7)]

/-- A concrete .bts file: a 1 x 1 grid, one time step, float32 fields
with pattern 1065353216 (the value 1.0), zero offsets, a two-byte
description and constant sample pattern 300. -/
def btsW : BtsFileSpec :=
  { tag := 7, nz := 1, ny := 1, ntwr := 0, nt := 1,
    dz := 1065353216, dy := 1065353216, dtQ := 1065353216, mffws := 1065353216,
    zHub := 1065353216, z1 := 1065353216,
    slopeU := 1065353216, offsetU := 0, slopeV := 1065353216, offsetV := 0,
    slopeW := 1065353216, offsetW := 0,
    desc := [65, 66], samples := fun _ => 300 }

/-! ## Theorems -/

/-- Recomposition of a 32-bit value from its four little-endian bytes. -/
theorem readU32_encode (f : BtsFileSpec) (x B : ℕ) (hx : x < 4294967296)
    (h0 : btsEncode f B = byteAt x 0) (h1 : btsEncode f (B + 1) = byteAt x 1)
    (h2 : btsEncode f (B + 2) = byteAt x 2) (h3 : btsEncode f (B + 3) = byteAt x 3) :
    readU32 (btsEncode f) B = x := by
  rw [readU32, h0, h1, h2, h3]
  norm_num [byteAt]
  omega

/-- Recomposition of a 16-bit value from its two little-endian bytes. -/
theorem readU16_encode (f : BtsFileSpec) (x B : ℕ) (hx : x < 65536)
    (h0 : btsEncode f B = byteAt x 0) (h1 : btsEncode f (B + 1) = byteAt x 1) :
    readU16 (btsEncode f) B = x := by
  rw [readU16, h0, h1]
  norm_num [byteAt]
  omega

/-- The encoded stream returns the encoded 16-bit sample pattern at the
sample's byte position. -/
theorem btsEncode_sample (f : BtsFileSpec) (idx : ℕ) (hs : f.samples idx < 65536) :
    readU16 (btsEncode f) (70 + f.desc.length + 2 * idx) = f.samples idx := by
  have e0 : btsEncode f (70 + f.desc.length + 2 * idx) = byteAt (f.samples idx) 0 := by
    unfold btsEncode
    rw [if_neg (by omega), if_neg (by omega)]
    have ha : 70 + f.desc.length + 2 * idx - (70 + f.desc.length) = 2 * idx := by omega
    rw [ha]
    have hb : 2 * idx / 2 = idx := by omega
    have hc : 2 * idx % 2 = 0 := by omega
    rw [hb, hc]
  have e1 : btsEncode f (70 + f.desc.length + 2 * idx + 1) = byteAt (f.samples idx) 1 := by
    unfold btsEncode
    rw [if_neg (by omega), if_neg (by omega)]
    have ha : 70 + f.desc.length + 2 * idx + 1 - (70 + f.desc.length) = 2 * idx + 1 := by omega
    rw [ha]
    have hb : (2 * idx + 1) / 2 = idx := by omega
    have hc : (2 * idx + 1) % 2 = 1 := by omega
    rw [hb, hc]
  rw [readU16, e0, e1]
  norm_num [byteAt]
  omega

/-- C7 (amended): encoding the byte layout the reader actually consumes
(int16 tag, then int32 nz BEFORE int32 ny, int32 ntwr, int32 nt, six
float32 scalars, three float32 (slope, offset) pairs, int32 description
length and the description bytes) and decoding it reproduces every
scalar header field, and the decoded velocity covers the full
(nt, 3, ny, nz) index space with each sample scaled per component as
(raw - offset) / slope. -/
theorem c7_amended (f : BtsFileSpec)
    (htag : f.tag < 65536)
    (hnz : f.nz < 2147483648) (hny : f.ny < 2147483648)
    (hntwr : f.ntwr < 4294967296) (hnt : f.nt < 4294967296)
    (hdz : f.dz < 4294967296) (hdy : f.dy < 4294967296) (hdt : f.dtQ < 4294967296)
    (hmffws : f.mffws < 4294967296) (hzHub : f.zHub < 4294967296) (hz1 : f.z1 < 4294967296)
    (hsU : f.slopeU < 4294967296) (hoU : f.offsetU < 4294967296)
    (hsV : f.slopeV < 4294967296) (hoV : f.offsetV < 4294967296)
    (hsW : f.slopeW < 4294967296) (hoW : f.offsetW < 4294967296)
    (hdesc : f.desc.length < 2147483648)
    (hsamples : ∀ j, f.samples j < 65536) :
    (btsHeader (btsEncode f)).tmp = toInt16 f.tag ∧
    (btsHeader (btsEncode f)).nz = (f.nz : ℤ) ∧
    (btsHeader (btsEncode f)).ny = (f.ny : ℤ) ∧
    (btsHeader (btsEncode f)).ntwr = toInt32 f.ntwr ∧
    (btsHeader (btsEncode f)).nt = toInt32 f.nt ∧
    (btsHeader (btsEncode f)).dz = ratOfFloat32 f.dz ∧
    (btsHeader (btsEncode f)).dy = ratOfFloat32 f.dy ∧
    (btsHeader (btsEncode f)).dtQ = ratOfFloat32 f.dtQ ∧
    (btsHeader (btsEncode f)).mffws = ratOfFloat32 f.mffws ∧
    (btsHeader (btsEncode f)).zHub = ratOfFloat32 f.zHub ∧
    (btsHeader (btsEncode f)).z1 = ratOfFloat32 f.z1 ∧
    (btsHeader (btsEncode f)).slopeU = ratOfFloat32 f.slopeU ∧
    (btsHeader (btsEncode f)).offsetU = ratOfFloat32 f.offsetU ∧
    (btsHeader (btsEncode f)).slopeV = ratOfFloat32 f.slopeV ∧
    (btsHeader (btsEncode f)).offsetV = ratOfFloat32 f.offsetV ∧
    (btsHeader (btsEncode f)).slopeW = ratOfFloat32 f.slopeW ∧
    (btsHeader (btsEncode f)).offsetW = ratOfFloat32 f.offsetW ∧
    btsNChar (btsEncode f) = (f.desc.length : ℤ) ∧
    (∀ it k iy iz : ℕ, it < f.nt → k < 3 → iy < f.ny → iz < f.nz →
      btsVelocity (btsEncode f) it k iy iz =
        ((toInt16 (f.samples (it * (3 * f.ny * f.nz) + ((iz * f.ny + iy) * 3 + k))) : ℚ) -
            btsOffset (btsHeader (btsEncode f)) k) / btsSlope (btsHeader (btsEncode f)) k) := by
  have r0 : readU16 (btsEncode f) 0 = f.tag :=
    readU16_encode f f.tag 0 htag (by norm_num [btsEncode, btsHeaderBytes])
      (by norm_num [btsEncode, btsHeaderBytes])
  have r2 : readU32 (btsEncode f) 2 = f.nz :=
    readU32_encode f f.nz 2 (by omega) (by norm_num [btsEncode, btsHeaderBytes])
      (by norm_num [btsEncode, btsHeaderBytes]) (by norm_num [btsEncode, btsHeaderBytes])
      (by norm_num [btsEncode, btsHeaderBytes])
  have r6 : readU32 (btsEncode f) 6 = f.ny :=
    readU32_encode f f.ny 6 (by omega) (by norm_num [btsEncode, btsHeaderBytes])
      (by norm_num [btsEncode, btsHeaderBytes]) (by norm_num [btsEncode, btsHeaderBytes])
      (by norm_num [btsEncode, btsHeaderBytes])
  have r10 : readU32 (btsEncode f) 10 = f.ntwr :=
    readU32_encode f f.ntwr 10 (hntwr) (by norm_num [btsEncode, btsHeaderBytes])
      (by norm_num [btsEncode, btsHeaderBytes]) (by norm_num [btsEncode, btsHeaderBytes])
      (by norm_num [btsEncode, btsHeaderBytes])
  have r14 : readU32 (btsEncode f) 14 = f.nt :=
    readU32_encode f f.nt 14 (hnt) (by norm_num [btsEncode, btsHeaderBytes])
      (by norm_num [btsEncode, btsHeaderBytes]) (by norm_num [btsEncode, btsHeaderBytes])
      (by norm_num [btsEncode, btsHeaderBytes])
  have r18 : readU32 (btsEncode f) 18 = f.dz :=
    readU32_encode f f.dz 18 (hdz) (by norm_num [btsEncode, btsHeaderBytes])
      (by norm_num [btsEncode, btsHeaderBytes]) (by norm_num [btsEncode, btsHeaderBytes])
      (by norm_num [btsEncode, btsHeaderBytes])
  have r22 : readU32 (btsEncode f) 22 = f.dy :=
    readU32_encode f f.dy 22 (hdy) (by norm_num [btsEncode, btsHeaderBytes])
      (by norm_num [btsEncode, btsHeaderBytes]) (by norm_num [btsEncode, btsHeaderBytes])
      (by norm_num [btsEncode, btsHeaderBytes])
  have r26 : readU32 (btsEncode f) 26 = f.dtQ :=
    readU32_encode f f.dtQ 26 (hdt) (by norm_num [btsEncode, btsHeaderBytes])
      (by norm_num [btsEncode, btsHeaderBytes]) (by norm_num [btsEncode, btsHeaderBytes])
      (by norm_num [btsEncode, btsHeaderBytes])
  have r30 : readU32 (btsEncode f) 30 = f.mffws :=
    readU32_encode f f.mffws 30 (hmffws) (by norm_num [btsEncode, btsHeaderBytes])
      (by norm_num [btsEncode, btsHeaderBytes]) (by norm_num [btsEncode, btsHeaderBytes])
      (by norm_num [btsEncode, btsHeaderBytes])
  have r34 : readU32 (btsEncode f) 34 = f.zHub :=
    readU32_encode f f.zHub 34 (hzHub) (by norm_num [btsEncode, btsHeaderBytes])
      (by norm_num [btsEncode, btsHeaderBytes]) (by norm_num [btsEncode, btsHeaderBytes])
      (by norm_num [btsEncode, btsHeaderBytes])
  have r38 : readU32 (btsEncode f) 38 = f.z1 :=
    readU32_encode f f.z1 38 (hz1) (by norm_num [btsEncode, btsHeaderBytes])
      (by norm_num [btsEncode, btsHeaderBytes]) (by norm_num [btsEncode, btsHeaderBytes])
      (by norm_num [btsEncode, btsHeaderBytes])
  have r42 : readU32 (btsEncode f) 42 = f.slopeU :=
    readU32_encode f f.slopeU 42 (hsU) (by norm_num [btsEncode, btsHeaderBytes])
      (by norm_num [btsEncode, btsHeaderBytes]) (by norm_num [btsEncode, btsHeaderBytes])
      (by norm_num [btsEncode, btsHeaderBytes])
  have r46 : readU32 (btsEncode f) 46 = f.offsetU :=
    readU32_encode f f.offsetU 46 (hoU) (by norm_num [btsEncode, btsHeaderBytes])
      (by norm_num [btsEncode, btsHeaderBytes]) (by norm_num [btsEncode, btsHeaderBytes])
      (by norm_num [btsEncode, btsHeaderBytes])
  have r50 : readU32 (btsEncode f) 50 = f.slopeV :=
    readU32_encode f f.slopeV 50 (hsV) (by norm_num [btsEncode, btsHeaderBytes])
      (by norm_num [btsEncode, btsHeaderBytes]) (by norm_num [btsEncode, btsHeaderBytes])
      (by norm_num [btsEncode, btsHeaderBytes])
  have r54 : readU32 (btsEncode f) 54 = f.offsetV :=
    readU32_encode f f.offsetV 54 (hoV) (by norm_num [btsEncode, btsHeaderBytes])
      (by norm_num [btsEncode, btsHeaderBytes]) (by norm_num [btsEncode, btsHeaderBytes])
      (by norm_num [btsEncode, btsHeaderBytes])
  have r58 : readU32 (btsEncode f) 58 = f.slopeW :=
    readU32_encode f f.slopeW 58 (hsW) (by norm_num [btsEncode, btsHeaderBytes])
      (by norm_num [btsEncode, btsHeaderBytes]) (by norm_num [btsEncode, btsHeaderBytes])
      (by norm_num [btsEncode, btsHeaderBytes])
  have r62 : readU32 (btsEncode f) 62 = f.offsetW :=
    readU32_encode f f.offsetW 62 (hoW) (by norm_num [btsEncode, btsHeaderBytes])
      (by norm_num [btsEncode, btsHeaderBytes]) (by norm_num [btsEncode, btsHeaderBytes])
      (by norm_num [btsEncode, btsHeaderBytes])
  have r66 : readU32 (btsEncode f) 66 = f.desc.length :=
    readU32_encode f f.desc.length 66 (by omega) (by norm_num [btsEncode, btsHeaderBytes])
      (by norm_num [btsEncode, btsHeaderBytes]) (by norm_num [btsEncode, btsHeaderBytes])
      (by norm_num [btsEncode, btsHeaderBytes])
  have hnzZ : (btsHeader (btsEncode f)).nz = (f.nz : ℤ) := by
    show toInt32 (readU32 (btsEncode f) 2) = (f.nz : ℤ)
    rw [r2, toInt32, if_pos hnz]
  have hnyZ : (btsHeader (btsEncode f)).ny = (f.ny : ℤ) := by
    show toInt32 (readU32 (btsEncode f) 6) = (f.ny : ℤ)
    rw [r6, toInt32, if_pos hny]
  have hnchar : btsNChar (btsEncode f) = (f.desc.length : ℤ) := by
    rw [btsNChar, r66, toInt32, if_pos hdesc]
  refine ⟨congrArg toInt16 r0, hnzZ, hnyZ, congrArg toInt32 r10, congrArg toInt32 r14,
    congrArg ratOfFloat32 r18, congrArg ratOfFloat32 r22, congrArg ratOfFloat32 r26,
    congrArg ratOfFloat32 r30, congrArg ratOfFloat32 r34, congrArg ratOfFloat32 r38,
    congrArg ratOfFloat32 r42, congrArg ratOfFloat32 r46, congrArg ratOfFloat32 r50,
    congrArg ratOfFloat32 r54, congrArg ratOfFloat32 r58, congrArg ratOfFloat32 r62,
    hnchar, ?_⟩
  intro it k iy iz hit hk hiy hiz
  have hds : btsDataStart (btsEncode f) = 70 + f.desc.length := by
    rw [btsDataStart, hnchar]
    simp
  have hnyT : (btsHeader (btsEncode f)).ny.toNat = f.ny := by
    rw [hnyZ]
    exact Int.toNat_natCast f.ny
  have hnzT : (btsHeader (btsEncode f)).nz.toNat = f.nz := by
    rw [hnzZ]
    exact Int.toNat_natCast f.nz
  show ((toInt16 (readU16 (btsEncode f) (btsDataStart (btsEncode f) +
      2 * (it * (3 * (btsHeader (btsEncode f)).ny.toNat * (btsHeader (btsEncode f)).nz.toNat) +
        ((iz * (btsHeader (btsEncode f)).ny.toNat + iy) * 3 + k)))) : ℚ) -
      btsOffset (btsHeader (btsEncode f)) k) / btsSlope (btsHeader (btsEncode f)) k = _
  rw [hds, hnyT, hnzT, btsEncode_sample f _ (hsamples _)]

/-- C7 (counterexample): a stream whose bytes store ny = 2 at offset 2
and nz = 3 at offset 6, i.e. laid out in the claim's stated field order
(ny before nz), decodes with ny and nz swapped: the reader consumes nz
first. -/
theorem c7_counterexample :
    (btsHeader (btsClaimOrderStream 7 2 3)).tmp = 7 ∧
    (btsHeader (btsClaimOrderStream 7 2 3)).ny = 3 ∧
    (btsHeader (btsClaimOrderStream 7 2 3)).nz = 2 ∧
    ¬ ((btsHeader (btsClaimOrderStream 7 2 3)).ny = 2 ∧
       (btsHeader (btsClaimOrderStream 7 2 3)).nz = 3) := by
  decide

/-- Witness for c7_amended at the concrete file btsW. -/
theorem c7_amended_witness :
    btsW.tag < 65536 ∧
    (btsHeader (btsEncode btsW)).nz = 1 ∧
    (btsHeader (btsEncode btsW)).ny = 1 ∧
    (btsHeader (btsEncode btsW)).dz = 1 ∧
    btsNChar (btsEncode btsW) = 2 ∧
    btsVelocity (btsEncode btsW) 0 0 0 0 =
      ((toInt16 (btsW.samples 0) : ℚ) - btsOffset (btsHeader (btsEncode btsW)) 0) /
        btsSlope (btsHeader (btsEncode btsW)) 0 := by
  have h := c7_amended btsW (by norm_num [btsW]) (by norm_num [btsW]) (by norm_num [btsW])
    (by norm_num [btsW]) (by norm_num [btsW]) (by norm_num [btsW]) (by norm_num [btsW])
    (by norm_num [btsW]) (by norm_num [btsW]) (by norm_num [btsW]) (by norm_num [btsW])
    (by norm_num [btsW]) (by norm_num [btsW]) (by norm_num [btsW]) (by norm_num [btsW])
    (by norm_num [btsW]) (by norm_num [btsW]) (by norm_num [btsW])
    (fun j => by norm_num [btsW])
  refine ⟨by norm_num [btsW], ?_, ?_, ?_, ?_, ?_⟩
  · rw [h.2.1]; norm_num [btsW]
  · rw [h.2.2.1]; norm_num [btsW]
  · rw [h.2.2.2.2.2.1]; norm_num [ratOfFloat32, btsW]
  · rw [h.2.2.2.2.2.2.2.2.2.2.2.2.2.2.2.2.2.1]; norm_num [btsW]
  · have hv := h.2.2.2.2.2.2.2.2.2.2.2.2.2.2.2.2.2.2 0 0 0 0 (by norm_num [btsW])
      (by norm_num) (by norm_num [btsW]) (by norm_num [btsW])
    simpa [btsW] using hv

/-- Updating at an index returns the new value there. -/
theorem upd_same (f : ℕ → ℚ) (i : ℕ) (x : ℚ) : upd f i x i = x := by
  simp [upd]

/-- Updating leaves other indices unchanged. -/
theorem upd_ne (f : ℕ → ℚ) (i : ℕ) (x : ℚ) (j : ℕ) (h : j ≠ i) : upd f i x j = f j := by
  simp [upd, h]

/-- Members of List.range' s n are at least s. -/
theorem mem_range'_ge (s n m : ℕ) (h : m ∈ List.range' s n) : s ≤ m := by
  induction n generalizing s with
  | zero => cases h
  | succ k ih =>
    rw [List.range'_succ] at h
    rcases List.mem_cons.mp h with h1 | h1
    · omega
    · have := ih (s + 1) h1
      omega

/-- The Region 3 fold does not touch the power entry at an index absent
from the iteration list. -/
theorem pcR3_fold_P (c : PCtx) (Om Uh : ℕ → ℚ) (l : List ℕ) (s : R3State) (k : ℕ)
    (h : ∀ i ∈ l, i ≠ k) : (l.foldl (pcR3Step c Om Uh) s).P k = s.P k := by
  induction l generalizing s with
  | nil => rfl
  | cons a t ih =>
    rw [List.foldl_cons]
    rw [ih _ (fun i hi => h i (List.mem_cons_of_mem a hi))]
    show upd s.P a _ k = s.P k
    exact upd_ne _ _ _ _ (fun hk => h a (List.mem_cons_self a t) (hk ▸ rfl))

/-- After an interior rated solve, the power at the rated index is the
rated power (line 278). -/
theorem pcRated_P_at_irated (c : PCtx) (h : (pcR2 c).irated + 1 < c.inp.npc) :
    (pcRated c).P ((pcR2 c).irated) = c.inp.control_ratedPower := by
  simp only [pcRated]
  rw [if_pos h]
  exact upd_same _ _ _

/-- The rated clamp can only lower the rotor speed schedule. -/
theorem pcRated_Omega_le (c : PCtx) (j : ℕ) : (pcRated c).Omega j ≤ pcOmega0 c j := by
  simp only [pcRated]
  split
  · dsimp only
    split
    · exact min_le_left _ _
    · exact le_refl _
  · exact le_refl _

/-- C1 (counterexample): with Region 3 regulation enabled and rated
power reached inside the grid (region3 true, rated index 3 on the
4-point instance), the electrical power decreases between adjacent grid
points 0 and 1 below the rated index, and the power at the grid point at
the rated index differs from the rated power 8: the Region 3 write-back
of the rated value is commented out in the source, and monotonicity is
never enforced. -/
theorem c1_counterexample :
    ctxC1.inp.regulation_reg_III = true ∧
    (RegulatedPowerCurve.compute ctxC1).region3 = true ∧
    (RegulatedPowerCurve.compute ctxC1).irated = 3 ∧
    ¬ ((RegulatedPowerCurve.compute ctxC1).P 0 ≤ (RegulatedPowerCurve.compute ctxC1).P 1) ∧
    (RegulatedPowerCurve.compute ctxC1).P 3 ≠ ctxC1.inp.control_ratedPower := by
  norm_num [RegulatedPowerCurve.compute, pcR3, pcR3Init, pcR3Step, pcRated, pcR2, pcR2Init,
    pcR2Step, pcI3init, pcIratedInit, pcRegionIdx, pcRegion3, pcUratedGuess, pcUhub2, npInterp,
    pcP0, pcPaero0, pcUhub, pcOmega0, pcOmega_tsr, pcOmega_max, pcOmega_min, rs2rpmQ, piQ,
    ctxC1, oracleC1, drvId, solvC1, upd, min_def, max_def, List.range_succ, List.find?,
    List.range']

/-- C1 (amended): when the baseline curve reaches rated power inside
the grid and Region 3 regulation is enabled, the electrical power is set
exactly to the rated power at the rated index, provided that index is
interior and precedes the final Region 3 start index i_3; the points
from i_3 on keep their re-evaluated root-found powers and are not forced
to the rated value, and the power need not be non-decreasing below the
rated index. -/
theorem c1_amended (c : PCtx)
    (h1 : (RegulatedPowerCurve.compute c).region3 = true)
    (h2 : c.inp.regulation_reg_III = true)
    (h3 : (RegulatedPowerCurve.compute c).irated + 1 < c.inp.npc)
    (h4 : (RegulatedPowerCurve.compute c).irated < (RegulatedPowerCurve.compute c).i3) :
    (RegulatedPowerCurve.compute c).P ((RegulatedPowerCurve.compute c).irated) =
      c.inp.control_ratedPower := by
  have h1q : pcRegion3 c = true := h1
  have h3q : (pcR2 c).irated + 1 < c.inp.npc := h3
  have h4q : (pcR2 c).irated < (pcR2 c).i3 := h4
  show (pcR3 c).P ((pcR2 c).irated) = c.inp.control_ratedPower
  simp only [pcR3]
  rw [if_pos h1q, if_pos h2]
  have hne : ∀ i ∈ List.range' (pcR2 c).i3 (c.inp.npc - (pcR2 c).i3), i ≠ (pcR2 c).irated := by
    intro i hi
    have := mem_range'_ge _ _ _ hi
    omega
  rw [pcR3_fold_P c _ _ _ _ _ hne]
  exact pcRated_P_at_irated c h3q

/-- Witness for c1_amended at the 3-point instance ctxC3, where the
sweep breaks at index 1 and the rated solve runs. -/
theorem c1_amended_witness :
    (RegulatedPowerCurve.compute ctxC3).region3 = true ∧
    (RegulatedPowerCurve.compute ctxC3).irated = 1 ∧
    (RegulatedPowerCurve.compute ctxC3).P 1 = 8 := by
  have hr3 : (RegulatedPowerCurve.compute ctxC3).region3 = true := by
    norm_num [RegulatedPowerCurve.compute, pcRegion3, pcRegionIdx, pcP0, pcPaero0, pcUhub,
      pcOmega0, pcOmega_tsr, pcOmega_max, pcOmega_min, rs2rpmQ, piQ, ctxC3, oracleC3, drvId,
      min_def, max_def, List.range_succ, List.find?]
  have hir : (RegulatedPowerCurve.compute ctxC3).irated = 1 := by
    norm_num [RegulatedPowerCurve.compute, pcR2, pcR2Init, pcR2Step, pcI3init, pcIratedInit,
      pcRegionIdx, pcUratedGuess, npInterp, pcP0, pcPaero0, pcUhub, pcOmega0, pcOmega_tsr,
      pcOmega_max, pcOmega_min, rs2rpmQ, piQ, ctxC3, oracleC3, drvId, solvC3, upd, min_def,
      max_def, List.range_succ, List.find?]
  have hi3 : 1 < (RegulatedPowerCurve.compute ctxC3).i3 := by
    norm_num [RegulatedPowerCurve.compute, pcR2, pcR2Init, pcR2Step, pcI3init, pcIratedInit,
      pcRegionIdx, pcUratedGuess, npInterp, pcP0, pcPaero0, pcUhub, pcOmega0, pcOmega_tsr,
      pcOmega_max, pcOmega_min, rs2rpmQ, piQ, ctxC3, oracleC3, drvId, solvC3, upd, min_def,
      max_def, List.range_succ, List.find?]
  have h := c1_amended ctxC3 hr3 rfl (by rw [hir]; norm_num [ctxC3]) (by rw [hir]; exact hi3)
  rw [hir] at h
  exact ⟨hr3, hir, h⟩

/-- C3 (counterexample): on the 3-point instance the control limits are
valid (minimum 5/2 rad/s below maximum 100 rad/s), yet the rotor speed
the solve produces at grid index 1 lies strictly below the minimum rotor
speed limit: the rated-speed clamp of line 273 is applied without
re-imposing the minimum. -/
theorem c3_counterexample :
    pcOmega_min ctxC3 ≤ pcOmega_max ctxC3 ∧
    pcOmega_min ctxC3 = 5 / 2 ∧
    (RegulatedPowerCurve.compute ctxC3).Omega 1 < pcOmega_min ctxC3 := by
  norm_num [RegulatedPowerCurve.compute, pcR3, pcR3Init, pcR3Step, pcRated, pcR2, pcR2Init,
    pcR2Step, pcI3init, pcIratedInit, pcRegionIdx, pcRegion3, pcUratedGuess, pcUhub2, npInterp,
    pcP0, pcPaero0, pcUhub, pcOmega0, pcOmega_tsr, pcOmega_max, pcOmega_min, rs2rpmQ, piQ,
    ctxC3, oracleC3, drvId, solvC3, upd, min_def, max_def, List.range_succ, List.find?,
    List.range']

/-- C3 (amended): whenever the minimum rotor speed limit does not
exceed the maximum, the rotor speed produced at every grid index never
exceeds max_tip_speed / Rtip nor the maximum rotor speed limit, and the
baseline clamped schedule also respects the minimum; the minimum bound
can be violated after the rated clamp (see the counterexample). -/
theorem c3_amended (c : PCtx) (i : ℕ) (hv : pcOmega_min c ≤ pcOmega_max c) :
    (RegulatedPowerCurve.compute c).Omega i ≤ c.inp.control_maxTS / c.inp.Rtip ∧
    (RegulatedPowerCurve.compute c).Omega i ≤ c.inp.control_maxOmega * piQ / 30 ∧
    pcOmega_min c ≤ pcOmega0 c i ∧ pcOmega0 c i ≤ pcOmega_max c := by
  have hbase : pcOmega0 c i ≤ pcOmega_max c := max_le (min_le_right _ _) hv
  have hOm : (RegulatedPowerCurve.compute c).Omega i ≤ pcOmega0 c i := pcRated_Omega_le c i
  refine ⟨?_, ?_, le_max_right _ _, hbase⟩
  · exact le_trans hOm (le_trans hbase (min_le_left _ _))
  · exact le_trans hOm (le_trans hbase (min_le_right _ _))

/-- Witness for c3_amended at the 3-point instance and grid index 0. -/
theorem c3_amended_witness :
    pcOmega_min ctxC3 ≤ pcOmega_max ctxC3 ∧
    ((RegulatedPowerCurve.compute ctxC3).Omega 0 ≤ ctxC3.inp.control_maxTS / ctxC3.inp.Rtip ∧
     (RegulatedPowerCurve.compute ctxC3).Omega 0 ≤ ctxC3.inp.control_maxOmega * piQ / 30 ∧
     pcOmega_min ctxC3 ≤ pcOmega0 ctxC3 0 ∧ pcOmega0 ctxC3 0 ≤ pcOmega_max ctxC3) := by
  have hv : pcOmega_min ctxC3 ≤ pcOmega_max ctxC3 := by
    norm_num [pcOmega_min, pcOmega_max, piQ, ctxC3, min_def]
  exact ⟨hv, c3_amended ctxC3 0 hv⟩

/-- C9: for a GEARED drivetrain with no efficiency table, evaluated at
aero power equal to rated power (normalized power 1), the efficiency is
1 - (0.01289 + 0.08510 + 0) = 0.90201 up to the tolerance the smoothing
helpers introduce: whenever the smoothed absolute value and smoothed
minimum each stay within ε of the exact absolute value and minimum at
this operating point (ε at most 1/4), the efficiency lies within
(4 * 0.01289) * ε of 0.90201. -/
theorem c9_drivetrain_geared_rated (sabs : ℚ → ℚ) (smin : ℚ → ℚ → ℚ) (ε r Orpm : ℚ)
    (hr : r ≠ 0) (hε0 : 0 ≤ ε) (hε : ε ≤ 1 / 4)
    (h1 : |sabs 1 - 1| ≤ ε)
    (h2 : |smin (sabs 1) 1 - min (sabs 1) 1| ≤ ε) :
    |(CSMDrivetrain sabs smin r r Orpm DriveType.GEARED none DriveTableType.RPM_EFF).2 -
        90201 / 100000| ≤ 1289 / 25000 * ε := by
  have hdiv : r / r = 1 := div_self hr
  show |1 - (1289 / 100000 / smin (sabs (r / r)) 1 + 851 / 10000 +
      0 * smin (sabs (r / r)) 1) - 90201 / 100000| ≤ 1289 / 25000 * ε
  rw [hdiv]
  set b := smin (sabs 1) 1 with hb
  obtain ⟨h1l, h1r⟩ := abs_le.mp h1
  obtain ⟨h2l, h2r⟩ := abs_le.mp h2
  have hminl : (1 : ℚ) - ε ≤ min (sabs 1) 1 := le_min (by linarith) (by linarith)
  have hminr : min (sabs 1) 1 ≤ 1 := min_le_right _ _
  have hbl : (1 : ℚ) - 2 * ε ≤ b := by linarith
  have hbr : b ≤ 1 + ε := by linarith
  have hbpos : (0 : ℚ) < b := by linarith
  have hbne : b ≠ 0 := ne_of_gt hbpos
  have key : 1 - (1289 / 100000 / b + 851 / 10000 + 0 * b) - 90201 / 100000
      = 1289 / 100000 * (b - 1) / b := by
    field_simp
    ring
  rw [key, abs_div, abs_mul, abs_of_pos hbpos,
    abs_of_pos (show (0 : ℚ) < 1289 / 100000 by norm_num), div_le_iff hbpos]
  have habs : |b - 1| ≤ 2 * ε := abs_le.mpr ⟨by linarith, by linarith⟩
  nlinarith [habs, abs_nonneg (b - 1), hbl, hε, hε0]

/-- Witness for c9_drivetrain_geared_rated with the exact absolute
value and minimum (tolerance 0) at rated power 5. -/
theorem c9_witness :
    ((5 : ℚ) ≠ 0) ∧
    |(fun x : ℚ => |x|) 1 - 1| ≤ (0 : ℚ) ∧
    |(CSMDrivetrain (fun x : ℚ => |x|) (fun a b : ℚ => min a b) 5 5 0 DriveType.GEARED none
        DriveTableType.RPM_EFF).2 - 90201 / 100000| ≤ 1289 / 25000 * 0 := by
  refine ⟨by norm_num, by norm_num, ?_⟩
  exact c9_drivetrain_geared_rated (fun x => |x|) (fun a b => min a b) 0 5 0 (by norm_num)
    (le_refl 0) (by norm_num) (by norm_num) (by norm_num)

/-- C5: resolve_project_capacity adds num_turbines = 20 from capacity
100 and rating 5; adds capacity = 100 from rating 5 and 20 turbines;
returns a consistent fully specified configuration unchanged; and raises
on an inconsistent one. -/
theorem c5_resolve_project_capacity :
    ProjectManager.resolve_project_capacity
        { plant := some { capacity := some 100, num_turbines := none },
          turbine := some { turbine_rating := some 5 } } =
      .ok { plant := some { capacity := some 100, num_turbines := some 20 },
            turbine := some { turbine_rating := some 5 } } ∧
    ProjectManager.resolve_project_capacity
        { plant := some { capacity := none, num_turbines := some 20 },
          turbine := some { turbine_rating := some 5 } } =
      .ok { plant := some { capacity := some 100, num_turbines := some 20 },
            turbine := some { turbine_rating := some 5 } } ∧
    ProjectManager.resolve_project_capacity
        { plant := some { capacity := some 100, num_turbines := some 20 },
          turbine := some { turbine_rating := some 5 } } =
      .ok { plant := some { capacity := some 100, num_turbines := some 20 },
            turbine := some { turbine_rating := some 5 } } ∧
    ProjectManager.resolve_project_capacity
        { plant := some { capacity := some 90, num_turbines := some 20 },
          turbine := some { turbine_rating := some 5 } } =
      .error "Input and calculated project capacity do not match." := by
  refine ⟨?_, ?_, ?_, ?_⟩ <;>
    norm_num [ProjectManager.resolve_project_capacity, truthy, ceilQ]

/-- Association-list lookup hits exactly the keys of the list. -/
theorem lookup_isSome_iff_mem (l : List (String × OrbitPhaseCls)) (a : String) :
    (∃ c, l.lookup a = some c) ↔ a ∈ l.map Prod.fst := by
  induction l with
  | nil => simp [List.lookup]
  | cons p t ih =>
    obtain ⟨k, v⟩ := p
    by_cases hk : a = k
    · subst hk
      simp [List.lookup]
    · have hbeq : (a == k) = false := by
        simp [hk]
      simp [List.lookup, hbeq, ih, hk]

/-- C10: a configured phase name resolves to a registered class exactly
when the token before its first underscore or space is a registered
class name; names sharing that token resolve identically (for example
TurbineInstallation_1 and TurbineInstallation_2 both resolve to
TurbineInstallation); and get_phase_class raises PhaseNotFound exactly
when the token matches no registered class. -/
theorem c10_phase_name_resolution :
    (∀ t : String, (∃ c, ProjectManager.find_key_match t = some c) ↔
      firstPhaseToken t ∈ phaseNames) ∧
    (∀ t1 t2 : String, firstPhaseToken t1 = firstPhaseToken t2 →
      ProjectManager.find_key_match t1 = ProjectManager.find_key_match t2) ∧
    ProjectManager.find_key_match "TurbineInstallation_1" = some .TurbineInstallation ∧
    ProjectManager.find_key_match "TurbineInstallation_2" = some .TurbineInstallation ∧
    (∀ t : String, ProjectManager.get_phase_class t = .error t ↔
      ¬ firstPhaseToken t ∈ phaseNames) := by
  have hkey : ∀ t : String, (∃ c, ProjectManager.find_key_match t = some c) ↔
      firstPhaseToken t ∈ phaseNames := by
    intro t
    exact lookup_isSome_iff_mem ProjectManager.phase_dict (firstPhaseToken t)
  refine ⟨hkey, ?_, by decide, by decide, ?_⟩
  · intro t1 t2 h
    unfold ProjectManager.find_key_match
    rw [h]
  · intro t
    constructor
    · intro herr
      intro hmem
      obtain ⟨c, hc⟩ := (hkey t).mpr hmem
      unfold ProjectManager.get_phase_class at herr
      rw [hc] at herr
      cases herr
    · intro hmem
      unfold ProjectManager.get_phase_class
      cases hfind : ProjectManager.find_key_match t with
      | none => rfl
      | some c =>
        exact absurd ((hkey t).mp ⟨c, hfind⟩) hmem

/-- Once progress is recorded, a dependent pass reports progress. -/
theorem depPass_true (dur : String → ℚ) : ∀ (l : List (String × String × ℚ)) (st : SchedState),
    (depPass dur l st true).2 = true := by
  intro l
  induction l with
  | nil => intro st; rfl
  | cons hd tl ih =>
    intro st
    obtain ⟨name, target, perc⟩ := hd
    simp only [depPass]
    cases ProjectManager.get_dependency_start_time st target perc with
    | some s => exact ih _
    | none => exact ih _

/-- A pass over entries whose targets are all unresolved leaves the
state untouched and records no progress. -/
theorem depPass_skip_all (dur : String → ℚ) :
    ∀ (l : List (String × String × ℚ)) (st : SchedState),
    (∀ e ∈ l, ProjectManager.get_dependency_start_time st e.2.1 e.2.2 = none) →
    depPass dur l st false = (st, false) := by
  intro l
  induction l with
  | nil => intro st _; rfl
  | cons hd tl ih =>
    intro st h
    obtain ⟨name, target, perc⟩ := hd
    have hhd : ProjectManager.get_dependency_start_time st target perc = none :=
      h (name, target, perc) (List.mem_cons_self _ _)
    simp only [depPass, hhd]
    exact ih st (fun e he => h e (List.mem_cons_of_mem _ he))

/-- If a pass starting with no progress ends with none, every entry's
target was unresolved in the incoming state. -/
theorem depPass_no_progress (dur : String → ℚ) :
    ∀ (l : List (String × String × ℚ)) (st : SchedState),
    (depPass dur l st false).2 = false →
    ∀ e ∈ l, ProjectManager.get_dependency_start_time st e.2.1 e.2.2 = none := by
  intro l
  induction l with
  | nil => intro st _ e he; cases he
  | cons hd tl ih =>
    intro st h e he
    obtain ⟨name, target, perc⟩ := hd
    simp only [depPass] at h
    cases hget : ProjectManager.get_dependency_start_time st target perc with
    | some s =>
      rw [hget] at h
      rw [depPass_true dur tl _] at h
      cases h
    | none =>
      rw [hget] at h
      rcases List.mem_cons.mp he with rfl | htl
      · exact hget
      · exact ih st h e htl

/-- run_dependent_phases raises PhaseDependenciesInvalid, naming the
dependent entries, exactly when the mapping is nonempty and every
entry's target is unresolved in the incoming state: the while body makes
one pass and otherwise breaks. -/
theorem run_dependent_phases_error_iff (dur : String → ℚ)
    (phases : List (String × String × ℚ)) (st : SchedState) :
    ProjectManager.run_dependent_phases dur phases st = .error phases ↔
      (phases ≠ [] ∧ ∀ e ∈ phases,
        ProjectManager.get_dependency_start_time st e.2.1 e.2.2 = none) := by
  constructor
  · intro herr
    simp only [ProjectManager.run_dependent_phases] at herr
    by_cases hc : phases ≠ [] ∧ (depPass dur phases st false).2 = false
    · exact ⟨hc.1, depPass_no_progress dur phases st hc.2⟩
    · rw [if_neg hc] at herr
      cases herr
  · rintro ⟨hne, hall⟩
    simp only [ProjectManager.run_dependent_phases]
    have hdp := depPass_skip_all dur phases st hall
    rw [if_pos ⟨hne, by rw [hdp]⟩]

/-- C2 (counterexample): with A defined at 0 and the dependent entries
listed as B after C, then C after A, the single pass resolves C (start
10) and merely skips B: the run raises no error and B is never resolved
or executed, though a second pass would have resolved it. -/
theorem c2_counterexample :
    overlapIsError (ProjectManager.run_multiple_phases_overlapping durC2 phasesC2) = false ∧
    overlapStarts (ProjectManager.run_multiple_phases_overlapping durC2 phasesC2) "B" = none ∧
    overlapStarts (ProjectManager.run_multiple_phases_overlapping durC2 phasesC2) "C" =
      some 10 := by
  simp +decide [ProjectManager.run_multiple_phases_overlapping,
    ProjectManager.parse_install_phase_values, ProjectManager.run_dependent_phases,
    ProjectManager.run_install_phase, ProjectManager.get_dependency_start_time, depPass, supd,
    emptySched, ceilQ, overlapIsError, overlapStarts, durC2, phasesC2,
    List.filterMap_cons, List.filterMap_nil, List.foldl_cons, List.foldl_nil, Int.ceil_zero]

/-- C2 (amended): the scheduler makes exactly one pass over the
dependent entries.  For install phases A at 0 and B depending on (A,
0.5) with A's duration 10, B's resolved start is 5; for B depending on
an absent C the run raises after the single unproductive pass; and in
general run_dependent_phases raises PhaseDependenciesInvalid naming the
dependent entries exactly when the mapping is nonempty and no entry's
target is resolved in the incoming state — entries whose targets stay
unknown after a pass that ran something else are skipped silently, not
retried. -/
theorem c2_amended :
    overlapStarts (ProjectManager.run_multiple_phases_overlapping durC2
        [("A", .at_index 0), ("B", .after "A" (1 / 2))]) "B" = some 5 ∧
    overlapIsError (ProjectManager.run_multiple_phases_overlapping durC2
        [("A", .at_index 0), ("B", .after "C" (1 / 2))]) = true ∧
    (∀ (dur : String → ℚ) (phases : List (String × String × ℚ)) (st : SchedState),
      ProjectManager.run_dependent_phases dur phases st = .error phases ↔
        (phases ≠ [] ∧ ∀ e ∈ phases,
          ProjectManager.get_dependency_start_time st e.2.1 e.2.2 = none)) := by
  refine ⟨?_, ?_, fun dur phases st => run_dependent_phases_error_iff dur phases st⟩
  · simp +decide [ProjectManager.run_multiple_phases_overlapping,
      ProjectManager.parse_install_phase_values, ProjectManager.run_dependent_phases,
      ProjectManager.run_install_phase, ProjectManager.get_dependency_start_time, depPass,
      supd, emptySched, ceilQ, overlapStarts, durC2, List.filterMap_cons, List.filterMap_nil,
      List.foldl_cons, List.foldl_nil, Int.ceil_zero] <;> norm_num
  · simp +decide [ProjectManager.run_multiple_phases_overlapping,
      ProjectManager.parse_install_phase_values, ProjectManager.run_dependent_phases,
      ProjectManager.run_install_phase, ProjectManager.get_dependency_start_time, depPass,
      supd, emptySched, ceilQ, overlapIsError, durC2, List.filterMap_cons, List.filterMap_nil,
      List.foldl_cons, List.foldl_nil, Int.ceil_zero] <;> norm_num

/-- Witness for c2_amended: B resolves to start 5 in the first example. -/
theorem c2_amended_witness :
    overlapStarts (ProjectManager.run_multiple_phases_overlapping durC2
        [("A", .at_index 0), ("B", .after "A" (1 / 2))]) "B" = some 5 :=
  c2_amended.1

/-- The serial loop never touches phases outside its list. -/
theorem serialGo_not_mem (dur : String → ℚ) :
    ∀ (names : List String) (st : SchedState) (start : ℚ) (k : String),
    ¬ k ∈ names → (serialGo dur names st start).phase_starts k = st.phase_starts k := by
  intro names
  induction names with
  | nil => intro st start k _; rfl
  | cons n rest ih =>
    intro st start k h
    have hk : k ≠ n := fun he => h (he ▸ List.mem_cons_self n rest)
    show (serialGo dur rest _ _).phase_starts k = _
    rw [ih _ _ k (fun hm => h (List.mem_cons_of_mem n hm))]
    show supd st.phase_starts n start k = st.phase_starts k
    simp [supd, hk]

/-- The serial loop records for the i-th phase the i-th start of the
ceiling recurrence. -/
theorem serialGo_starts (dur : String → ℚ) :
    ∀ (names : List String) (st : SchedState) (start : ℚ) (i : ℕ) (hi : i < names.length),
    names.Nodup →
    (serialGo dur names st start).phase_starts (names.get ⟨i, hi⟩) =
      some (serialStartFrom dur start names i) := by
  intro names
  induction names with
  | nil =>
    intro st start i hi
    exact absurd hi (by simp)
  | cons n rest ih =>
    intro st start i hi hnd
    cases i with
    | zero =>
      have hn : ¬ n ∈ rest := (List.nodup_cons.mp hnd).1
      show (serialGo dur rest _ _).phase_starts n = some start
      rw [serialGo_not_mem dur rest _ _ n hn]
      show supd st.phase_starts n start n = some start
      simp [supd]
    | succ j =>
      have hj : j < rest.length := by simpa using hi
      exact ih (ProjectManager.run_install_phase dur st n start) (ceilQ (start + dur n)) j hj
        (List.nodup_cons.mp hnd).2

/-- The specified start sequence satisfies the ceiling recurrence. -/
theorem serialStartFrom_succ (dur : String → ℚ) :
    ∀ (names : List String) (start : ℚ) (j : ℕ), j < names.length →
    serialStartFrom dur start names (j + 1) =
      ceilQ (serialStartFrom dur start names j + dur (names.getD j "")) := by
  intro names
  induction names with
  | nil => intro start j h; simp at h
  | cons n rest ih =>
    intro start j h
    cases j with
    | zero => simp [serialStartFrom]
    | succ k =>
      have hk : k < rest.length := by simpa using h
      exact ih (ceilQ (start + dur n)) k hk

/-- C8: run_multiple_phases_in_serial records the first phase at start
time 0 and each subsequent phase at the ceiling of the previous phase's
start plus its duration: the i-th recorded start equals the i-th element
of that recurrence. -/
theorem c8_run_serial (dur : String → ℚ) (phase_list : List String) (i : ℕ)
    (hnd : phase_list.Nodup) (hi : i < phase_list.length) :
    (ProjectManager.run_multiple_phases_in_serial dur phase_list).phase_starts
        (phase_list.get ⟨i, hi⟩) = some (serialStartFrom dur 0 phase_list i) ∧
    serialStartFrom dur 0 phase_list 0 = 0 ∧
    (∀ j, j + 1 < phase_list.length →
      serialStartFrom dur 0 phase_list (j + 1) =
        ceilQ (serialStartFrom dur 0 phase_list j + dur (phase_list.getD j ""))) := by
  refine ⟨serialGo_starts dur phase_list emptySched 0 i hi hnd, ?_, ?_⟩
  · cases phase_list <;> simp [serialStartFrom]
  · intro j hj
    exact serialStartFrom_succ dur phase_list 0 j (by omega)

/-- Witness for c8_run_serial on two phases with the first duration
3/2: the second phase starts at ceil(3/2) = 2. -/
theorem c8_witness :
    (["a", "b"] : List String).Nodup ∧
    (ProjectManager.run_multiple_phases_in_serial durC8 ["a", "b"]).phase_starts "b" =
      some 2 := by
  have h := (c8_run_serial durC8 ["a", "b"] 1 (by decide) (by decide)).1
  refine ⟨by decide, ?_⟩
  have e : serialStartFrom durC8 0 ["a", "b"] 1 = 2 := by
    have hc : ⌈(3 : ℚ) / 2⌉ = (2 : ℤ) := by
      rw [Int.ceil_eq_iff]
      norm_num
    simp +decide [serialStartFrom, durC8, ceilQ] <;> norm_num [hc]
  rw [e] at h
  exact h

/-- C10 witness: two configured names sharing the first token resolve
to the same phase class. -/
theorem c10_witness :
    firstPhaseToken "TurbineInstallation_1" = firstPhaseToken "TurbineInstallation_2" ∧
    ProjectManager.find_key_match "TurbineInstallation_1" =
      ProjectManager.find_key_match "TurbineInstallation_2" :=
  ⟨by decide,
    c10_phase_name_resolution.2.1 "TurbineInstallation_1" "TurbineInstallation_2" (by decide)⟩

/-- Dictionary assignment stores the assigned value. -/
theorem dlookup_dinsert_self (l : List (String × CVal)) (k : String) (v : CVal) :
    dlookup (dinsert l k v) k = some v := by
  induction l with
  | nil => simp [dinsert, dlookup]
  | cons p rest ih =>
    obtain ⟨k1, v1⟩ := p
    by_cases h : k1 = k
    · subst h
      simp [dinsert, dlookup]
    · simp [dinsert, dlookup, h, ih]

/-- Dictionary assignment leaves other keys unchanged. -/
theorem dlookup_dinsert_ne (l : List (String × CVal)) (k k1 : String) (v : CVal)
    (h : k1 ≠ k) : dlookup (dinsert l k v) k1 = dlookup l k1 := by
  induction l with
  | nil => simp [dinsert, dlookup, Ne.symm h]
  | cons p rest ih =>
    obtain ⟨k2, v2⟩ := p
    by_cases h2 : k2 = k
    · subst h2
      simp [dinsert, dlookup, Ne.symm h]
    · by_cases h3 : k2 = k1
      · subst h3
        simp [dinsert, dlookup, h2]
      · simp [dinsert, dlookup, h2, h3, ih]

/-- A key added to a dictionary in which it was absent does not disturb
leaf values reachable through other keys. -/
theorem dlookupPath_dinsert_pres (left : List (String × CVal)) (k : String) (x : CVal)
    (path : List String) (z : ℤ) (hdl : dlookup left k = none)
    (hpath : dlookupPath (.node left) path = some (.leaf z)) :
    dlookupPath (.node (dinsert left k x)) path = some (.leaf z) := by
  cases path with
  | nil => simp [dlookupPath] at hpath
  | cons p ps =>
    simp only [dlookupPath] at hpath ⊢
    cases hlp : dlookup left p with
    | none => rw [hlp] at hpath; cases hpath
    | some w =>
      rw [hlp] at hpath
      have hpk : p ≠ k := by
        intro he
        rw [he, hdl] at hlp
        cases hlp
      rw [dlookup_dinsert_ne left k p x hpk, hlp]
      exact hpath

/-- A non-overwriting merge preserves every leaf value reachable in the
left dictionary, at any nesting depth (joint statement over the entry
step and the loop, by strong induction on the size of the right-hand
side). -/
theorem merge_pres_aux : ∀ m : ℕ,
    (∀ rv : CVal, sizeOf rv ≤ m → ∀ (left : List (String × CVal)) (k : String)
      (path : List String) (z : ℤ),
      dlookupPath (.node left) path = some (.leaf z) →
      dlookupPath (.node (mergeEntry false left k rv)) path = some (.leaf z)) ∧
    (∀ right : List (String × CVal), sizeOf right ≤ m →
      ∀ (left : List (String × CVal)) (path : List String) (z : ℤ),
      dlookupPath (.node left) path = some (.leaf z) →
      dlookupPath (.node (mergeListR false left right)) path = some (.leaf z)) := by
  intro m
  induction m with
  | zero =>
    constructor
    · intro rv hrv
      exact absurd hrv (by cases rv <;> simp)
    · intro right hr
      exact absurd hr (by cases right <;> simp)
  | succ m ih =>
    obtain ⟨ihE, ihL⟩ := ih
    constructor
    · intro rv hrv left k path z hpath
      cases rv with
      | leaf n =>
        cases hdl : dlookup left k with
        | some v => simpa [mergeEntry, hdl] using hpath
        | none =>
          simp only [mergeEntry, hdl]
          exact dlookupPath_dinsert_pres left k _ path z hdl hpath
      | node rl =>
        have hrl : sizeOf rl ≤ m := by
          simp only [CVal.node.sizeOf_spec] at hrv
          omega
        cases hdl : dlookup left k with
        | none =>
          simp only [mergeEntry, hdl]
          exact dlookupPath_dinsert_pres left k _ path z hdl hpath
        | some v =>
          cases v with
          | leaf n2 => simpa [mergeEntry, hdl] using hpath
          | node lv =>
            simp only [mergeEntry, hdl]
            cases path with
            | nil => simp [dlookupPath] at hpath
            | cons p ps =>
              simp only [dlookupPath] at hpath ⊢
              cases hlp : dlookup left p with
              | none => rw [hlp] at hpath; cases hpath
              | some w =>
                rw [hlp] at hpath
                by_cases hpk : p = k
                · subst hpk
                  have hw : w = .node lv := by
                    rw [hdl] at hlp
                    cases hlp
                    rfl
                  subst hw
                  rw [dlookup_dinsert_self]
                  exact ihL rl hrl lv ps z hpath
                · rw [dlookup_dinsert_ne left k p _ hpk, hlp]
                  exact hpath
    · intro right hr left path z hpath
      cases right with
      | nil => simpa [mergeListR] using hpath
      | cons hd rest =>
        obtain ⟨k, rv⟩ := hd
        have hrest : sizeOf rest ≤ m := by
          simp only [List.cons.sizeOf_spec, Prod.mk.sizeOf_spec] at hr
          omega
        have hrv : sizeOf rv ≤ m := by
          simp only [List.cons.sizeOf_spec, Prod.mk.sizeOf_spec] at hr
          omega
        simp only [mergeListR]
        exact ihL rest hrest _ path z (ihE rv hrv left k path z hpath)

/-- The entry step leaves lookups at other keys unchanged. -/
theorem mergeEntry_lookup_ne (ow : Bool) (left : List (String × CVal)) (k1 : String)
    (rv : CVal) (k : String) (h : k ≠ k1) :
    dlookup (mergeEntry ow left k1 rv) k = dlookup left k := by
  cases rv with
  | leaf n =>
    cases hdl : dlookup left k1 with
    | none => simp [mergeEntry, hdl, dlookup_dinsert_ne _ _ _ _ h]
    | some v =>
      simp only [mergeEntry, hdl]
      split
      · exact dlookup_dinsert_ne _ _ _ _ h
      · rfl
  | node rl =>
    cases hdl : dlookup left k1 with
    | none => simp [mergeEntry, hdl, dlookup_dinsert_ne _ _ _ _ h]
    | some v =>
      cases v with
      | leaf n2 =>
        simp only [mergeEntry, hdl]
        split
        · exact dlookup_dinsert_ne _ _ _ _ h
        · rfl
      | node lv => simp [mergeEntry, hdl, dlookup_dinsert_ne _ _ _ _ h]

/-- The merge loop leaves lookups unchanged at keys absent from right. -/
theorem mergeListR_lookup_not_mem (ow : Bool) :
    ∀ (right left : List (String × CVal)) (k : String), (∀ e ∈ right, e.1 ≠ k) →
    dlookup (mergeListR ow left right) k = dlookup left k := by
  intro right
  induction right with
  | nil => intro left k _; simp [mergeListR]
  | cons hd rest ih =>
    intro left k h
    obtain ⟨k1, rv⟩ := hd
    simp only [mergeListR]
    rw [ih _ k (fun e he => h e (List.mem_cons_of_mem _ he))]
    exact mergeEntry_lookup_ne ow left k1 rv k
      (fun he => h (k1, rv) (List.mem_cons_self _ _) he.symm)

/-- The entry step at an absent key stores the right-hand value. -/
theorem mergeEntry_lookup_none (ow : Bool) (left : List (String × CVal)) (k : String)
    (rv : CVal) (h : dlookup left k = none) :
    dlookup (mergeEntry ow left k rv) k = some rv := by
  cases rv <;> simp [mergeEntry, h, dlookup_dinsert_self]

/-- A non-overwriting merge adds every key of right that was absent
from left, carrying the right-hand value (right's keys unique, as for a
python dict). -/
theorem mergeListR_adds (right : List (String × CVal)) :
    ∀ (left : List (String × CVal)) (k : String) (w : CVal),
    dlookup left k = none → dlookup right k = some w → (right.map Prod.fst).Nodup →
    dlookup (mergeListR false left right) k = some w := by
  induction right with
  | nil => intro left k w _ h2 _; cases h2
  | cons hd rest ih =>
    intro left k w h1 h2 hnd
    obtain ⟨k1, rv⟩ := hd
    simp only [List.map_cons] at hnd
    by_cases hk : k1 = k
    · subst hk
      have hw : w = rv := by
        simp [dlookup] at h2
        exact h2.symm
      subst hw
      simp only [mergeListR]
      have hkabs : ∀ e ∈ rest, e.1 ≠ k1 := by
        intro e he hek
        exact (List.nodup_cons.mp hnd).1 (hek ▸ List.mem_map_of_mem Prod.fst he)
      rw [mergeListR_lookup_not_mem false rest _ k1 hkabs]
      exact mergeEntry_lookup_none false left k1 _ h1
    · have h2q : dlookup rest k = some w := by
        simpa [dlookup, hk] using h2
      simp only [mergeListR]
      refine ih (mergeEntry false left k1 rv) k w ?_ h2q (List.nodup_cons.mp hnd).2
      rw [mergeEntry_lookup_ne false left k1 rv k (fun he => hk he.symm)]
      exact h1

/-- C6 (counterexample): merging a design result into a configuration
whose key a already holds a mapping does not leave a's value unchanged:
the nested mappings are merged recursively, so a gains the new nested
key y while keeping x; the top-level key a therefore does not keep its
prior value. -/
theorem c6_counterexample :
    dlookup cfgC6 "a" = some (.node [("x", .leaf 1)]) ∧
    dlookupPath (.node cfgC6) ["a", "y"] = none ∧
    dlookupPath (.node (ProjectManager.run_design_phase drC6 cfgC6 "MonopileDesign"))
      ["a", "y"] = some (.leaf 3) ∧
    ¬ dlookup (ProjectManager.run_design_phase drC6 cfgC6 "MonopileDesign") "a" =
      some (.node [("x", .leaf 1)]) := by
  refine ⟨?_, ?_, ?_, ?_⟩ <;>
    simp +decide [ProjectManager.run_design_phase, ProjectManager.merge_dicts, mergeListR,
      mergeEntry, dlookup, dinsert, dlookupPath, cfgC6, drC6]

/-- C6 (amended): a run_design_phase merge with overwrite disabled
preserves every existing non-mapping (leaf) value at every nesting
depth — first writer wins at leaf level — and adds every absent
top-level key of the design result; when both sides hold mappings at a
key the mappings are merged recursively, so an existing key's mapping
value may gain new nested entries. -/
theorem c6_amended (design_result : String → List (String × CVal))
    (config : List (String × CVal)) (name : String) :
    (∀ (path : List String) (z : ℤ),
      dlookupPath (.node config) path = some (.leaf z) →
      dlookupPath (.node (ProjectManager.run_design_phase design_result config name)) path =
        some (.leaf z)) ∧
    (∀ (k : String) (w : CVal), dlookup config k = none →
      dlookup (design_result name) k = some w →
      ((design_result name).map Prod.fst).Nodup →
      dlookup (ProjectManager.run_design_phase design_result config name) k = some w) := by
  constructor
  · intro path z h
    show dlookupPath (.node (mergeListR false config (design_result name))) path = _
    exact (merge_pres_aux (sizeOf (design_result name))).2 _ (le_refl _) config path z h
  · intro k w h1 h2 hnd
    show dlookup (mergeListR false config (design_result name)) k = some w
    exact mergeListR_adds (design_result name) config k w h1 h2 hnd

/-- Witness for c6_amended: the nested leaf at a/x keeps value 1 and
the absent key c is added with value 7. -/
theorem c6_amended_witness :
    dlookupPath (.node cfgC6) ["a", "x"] = some (.leaf 1) ∧
    dlookupPath (.node (ProjectManager.run_design_phase drC6 cfgC6 "MonopileDesign"))
      ["a", "x"] = some (.leaf 1) ∧
    dlookup (ProjectManager.run_design_phase drC6 cfgC6 "MonopileDesign") "c" =
      some (.leaf 7) := by
  have h := c6_amended drC6 cfgC6 "MonopileDesign"
  refine ⟨by simp +decide [dlookupPath, dlookup, cfgC6], ?_, ?_⟩
  · exact h.1 ["a", "x"] 1 (by simp +decide [dlookupPath, dlookup, cfgC6])
  · exact h.2 "c" (.leaf 7) (by simp +decide [dlookup, cfgC6])
      (by simp +decide [dlookup, drC6]) (by simp +decide [drC6])

/-- getD through a map that joins each time with the export time. -/
theorem getD_map_max (l : List ℚ) (e : ℚ) : ∀ (i : ℕ), i < l.length →
    (l.map (fun t => max t e)).getD i 0 = max (l.getD i 0) e := by
  induction l with
  | nil => intro i hi; simp at hi
  | cons x xs ih =>
    intro i hi
    cases i with
    | zero => simp
    | succ j =>
      simp only [List.map_cons, List.getD_cons_succ]
      exact ih j (by simpa using hi)

/-- getD through a zip of two rational lists. -/
theorem getD_zip_pair (a : List ℚ) : ∀ (b : List ℚ) (i : ℕ), i < a.length → i < b.length →
    (a.zip b).getD i (0, 0) = (a.getD i 0, b.getD i 0) := by
  induction a with
  | nil => intro b i hi _; simp at hi
  | cons x xs ih =>
    intro b i hi hb
    cases b with
    | nil => simp at hb
    | cons y ys =>
      cases i with
      | zero => simp
      | succ j =>
        simp only [List.zip_cons_cons, List.getD_cons_succ]
        exact ih ys j (by simpa using hi) (by simpa using hb)

/-- getD through the zip-with-max of complete_array_strings. -/
theorem getD_zipmap (s : List ℚ) : ∀ (ab : List (ℚ × ℚ)) (i : ℕ), i < s.length →
    i < ab.length →
    ((s.zip ab).map (fun p => max p.1 (max p.2.1 p.2.2))).getD i 0 =
      max (s.getD i 0) (max ((ab.getD i (0, 0)).1) ((ab.getD i (0, 0)).2)) := by
  induction s with
  | nil => intro ab i hi _; simp at hi
  | cons x xs ih =>
    intro ab i hi hab
    cases ab with
    | nil => simp at hab
    | cons p ps =>
      cases i with
      | zero => simp
      | succ j =>
        simp only [List.zip_cons_cons, List.map_cons, List.getD_cons_succ]
        exact ih ps j (by simpa using hi) (by simpa using hab)

/-- The i-th chunk maximum is the maximum of the i-th contiguous block. -/
theorem chunk_max_getD (n : ℕ) (hn : n ≠ 0) : ∀ (i : ℕ) (l : List ℚ),
    (ProjectProgress.chunk_max l n).getD i 0 = maxListD ((l.drop (n * i)).take n) := by
  intro i
  induction i with
  | zero =>
    intro l
    cases l with
    | nil => simp [ProjectProgress.chunk_max, maxListD]
    | cons x xs =>
      rw [ProjectProgress.chunk_max, if_neg hn]
      simp
  | succ j ih =>
    intro l
    cases l with
    | nil => simp [ProjectProgress.chunk_max, maxListD]
    | cons x xs =>
      rw [ProjectProgress.chunk_max, if_neg hn]
      rw [List.getD_cons_succ]
      rw [ih (xs.drop (n - 1))]
      congr 1
      rw [List.drop_drop]
      obtain ⟨m, rfl⟩ : ∃ m, n = m + 1 := ⟨n - 1, by omega⟩
      have hmul : (m + 1) * (j + 1) = ((m + 1) * j + m) + 1 := by ring
      rw [hmul, List.drop_succ_cons]
      congr 2
      omega

/-- The i-th chunk length is the length of the i-th contiguous block. -/
theorem chunk_len_getD (n : ℕ) (hn : n ≠ 0) : ∀ (i : ℕ) (l : List ℚ),
    (ProjectProgress.chunk_len l n).getD i 0 = ((l.drop (n * i)).take n).length := by
  intro i
  induction i with
  | zero =>
    intro l
    cases l with
    | nil => simp [ProjectProgress.chunk_len]
    | cons x xs =>
      rw [ProjectProgress.chunk_len, if_neg hn]
      simp
  | succ j ih =>
    intro l
    cases l with
    | nil => simp [ProjectProgress.chunk_len]
    | cons x xs =>
      rw [ProjectProgress.chunk_len, if_neg hn]
      rw [List.getD_cons_succ]
      rw [ih (xs.drop (n - 1))]
      congr 1
      rw [List.drop_drop]
      obtain ⟨m, rfl⟩ : ∃ m, n = m + 1 := ⟨n - 1, by omega⟩
      have hmul : (m + 1) * (j + 1) = ((m + 1) * j + m) + 1 := by ring
      rw [hmul, List.drop_succ_cons]
      congr 2
      omega

/-- A ceiling division of a positive count by a positive count is
positive. -/
theorem natCeilDiv_ne_zero (a b : ℕ) (ha : a ≠ 0) (hb : b ≠ 0) : natCeilDiv a b ≠ 0 := by
  unfold natCeilDiv
  by_cases h : a % b = 0
  · have : b ∣ a := Nat.dvd_of_mod_eq_zero h
    have hba : b ≤ a := Nat.le_of_dvd (Nat.pos_of_ne_zero ha) this
    have : 1 ≤ a / b := (Nat.one_le_div_iff (Nat.pos_of_ne_zero hb)).mpr hba
    simp [h]
    omega
  · simp [h]

/-- C4 (counterexample): on a log with two array strings and three
turbines completing at 1, 2, 3, the code energizes the strings at
[2, 3]: turbines are dealt to strings in contiguous blocks of two in
log order, not round-robin, which would yield [3, 2]. -/
theorem c4_counterexample :
    exOkPair (ProjectProgress.energize_points dataC4) = some ([2, 3], [2, 1]) ∧
    exOkPair (energizeRoundRobin dataC4) = some ([3, 2], [2, 1]) ∧
    exOkPair (ProjectProgress.energize_points dataC4) ≠
      exOkPair (energizeRoundRobin dataC4) := by
  refine ⟨?_, ?_, ?_⟩
  · norm_num +decide [ProjectProgress.energize_points,
      ProjectProgress.complete_export_system, ProjectProgress.complete_array_strings,
      ProjectProgress.parse_logs, ProjectProgress.chunk_max, ProjectProgress.chunk_len,
      maxListD, exOkPair, dataC4, max_def]
  · norm_num +decide [energizeRoundRobin, ProjectProgress.parse_logs, rrMax, rrAssignIdx,
      maxListD, exOkPair, dataC4, max_def, List.range_succ]
  · norm_num +decide [ProjectProgress.energize_points, energizeRoundRobin,
      ProjectProgress.complete_export_system, ProjectProgress.complete_array_strings,
      ProjectProgress.parse_logs, ProjectProgress.chunk_max, ProjectProgress.chunk_len,
      rrMax, rrAssignIdx, maxListD, exOkPair, dataC4, max_def, List.range_succ]

/-- C4 (amended): every energize time the code returns for string i is
the max of that string's completion time, the maxima of the i-th
contiguous blocks (of ceil(turbines / strings) items, in log order) of
the substructure and turbine completion lists, and the shared
export-system completion time; the returned turbine counts are the
block lengths; and at most one energize time per array string is
returned (strings beyond the available blocks are dropped by the zip). -/
theorem c4_amended (data : List (String × ℚ)) (exportSys : ℚ) (times : List ℚ)
    (counts : List ℕ)
    (hexp : ProjectProgress.complete_export_system data = .ok exportSys)
    (hok : ProjectProgress.energize_points data = .ok (times, counts)) :
    (∀ i, i < times.length →
      times.getD i 0 =
        max ((ProjectProgress.parse_logs data "Array String").getD i 0)
          (max (maxListD (sliceTake (ProjectProgress.parse_logs data "Substructure")
              (c4per data) i))
            (max (maxListD (sliceTake (ProjectProgress.parse_logs data "Turbine")
                (c4per data) i)) exportSys))) ∧
    (∀ i, counts.getD i 0 =
      (sliceTake (ProjectProgress.parse_logs data "Turbine") (c4per data) i).length) ∧
    times.length ≤ (ProjectProgress.parse_logs data "Array String").length := by
  simp only [ProjectProgress.energize_points, hexp] at hok
  cases e2 : ProjectProgress.complete_array_strings data with
  | error s => rw [e2] at hok; cases hok
  | ok tc =>
    rw [e2] at hok
    obtain ⟨t0, c0⟩ := tc
    simp only at hok
    have ht : t0.map (fun t => max t exportSys) = times := congrArg Prod.fst (Except.ok.inj hok)
    have hc : c0 = counts := congrArg Prod.snd (Except.ok.inj hok)
    by_cases hstr : ProjectProgress.parse_logs data "Array String" = []
    · simp only [ProjectProgress.complete_array_strings, if_pos hstr] at e2
      cases e2
    · by_cases hsub : ProjectProgress.parse_logs data "Substructure" = []
      · simp only [ProjectProgress.complete_array_strings, if_neg hstr, if_pos hsub] at e2
        cases e2
      · by_cases hturb : ProjectProgress.parse_logs data "Turbine" = []
        · simp only [ProjectProgress.complete_array_strings, if_neg hstr, if_neg hsub,
            if_pos hturb] at e2
          cases e2
        · simp only [ProjectProgress.complete_array_strings, if_neg hstr, if_neg hsub,
            if_neg hturb] at e2
          have ht0 : t0 = ((ProjectProgress.parse_logs data "Array String").zip
              ((ProjectProgress.chunk_max (ProjectProgress.parse_logs data "Substructure")
                  (c4per data)).zip
                (ProjectProgress.chunk_max (ProjectProgress.parse_logs data "Turbine")
                  (c4per data)))).map (fun p => max p.1 (max p.2.1 p.2.2)) :=
            (congrArg Prod.fst (Except.ok.inj e2)).symm
          have hc0 : counts = ProjectProgress.chunk_len
              (ProjectProgress.parse_logs data "Turbine") (c4per data) := by
            rw [← hc]
            exact (congrArg Prod.snd (Except.ok.inj e2)).symm
          have hper : c4per data ≠ 0 :=
            natCeilDiv_ne_zero _ _ (fun h => hturb (List.length_eq_zero.mp h))
              (fun h => hstr (List.length_eq_zero.mp h))
          have hlen : times.length = t0.length := by rw [← ht, List.length_map]
          refine ⟨?_, ?_, ?_⟩
          · intro i hi
            have hit0 : i < t0.length := by omega
            have hbounds : i < (ProjectProgress.parse_logs data "Array String").length ∧
                i < ((ProjectProgress.chunk_max
                    (ProjectProgress.parse_logs data "Substructure") (c4per data)).zip
                  (ProjectProgress.chunk_max (ProjectProgress.parse_logs data "Turbine")
                    (c4per data))).length := by
              rw [ht0, List.length_map, List.length_zip] at hit0
              constructor <;> omega
            have hzlen := hbounds.2
            have hsub_len : i < (ProjectProgress.chunk_max
                (ProjectProgress.parse_logs data "Substructure") (c4per data)).length := by
              rw [List.length_zip] at hzlen
              omega
            have hturb_len : i < (ProjectProgress.chunk_max
                (ProjectProgress.parse_logs data "Turbine") (c4per data)).length := by
              rw [List.length_zip] at hzlen
              omega
            rw [← ht, getD_map_max t0 exportSys i hit0, ht0,
              getD_zipmap _ _ i hbounds.1 hbounds.2,
              getD_zip_pair _ _ i hsub_len hturb_len]
            rw [chunk_max_getD (c4per data) hper i, chunk_max_getD (c4per data) hper i]
            rw [max_assoc, max_assoc]
            rfl
          · intro i
            rw [hc0, chunk_len_getD (c4per data) hper i]
            rfl
          · rw [hlen, ht0, List.length_map, List.length_zip]
            omega

/-- Witness for c4_amended at the concrete log dataC4, string 0: the
energize time 2 is the max of string completion 0, block maxima 0 and
2, and export completion 0. -/
theorem c4_amended_witness :
    ProjectProgress.energize_points dataC4 = .ok ([2, 3], [2, 1]) ∧
    ([2, 3] : List ℚ).getD 0 0 =
      max ((ProjectProgress.parse_logs dataC4 "Array String").getD 0 0)
        (max (maxListD (sliceTake (ProjectProgress.parse_logs dataC4 "Substructure")
            (c4per dataC4) 0))
          (max (maxListD (sliceTake (ProjectProgress.parse_logs dataC4 "Turbine")
              (c4per dataC4) 0)) 0)) := by
  have hexp : ProjectProgress.complete_export_system dataC4 = .ok 0 := by
    norm_num +decide [ProjectProgress.complete_export_system, ProjectProgress.parse_logs,
      maxListD, dataC4, max_def]
  have hok : ProjectProgress.energize_points dataC4 = .ok ([2, 3], [2, 1]) := by
    norm_num +decide [ProjectProgress.energize_points,
      ProjectProgress.complete_export_system, ProjectProgress.complete_array_strings,
      ProjectProgress.parse_logs, ProjectProgress.chunk_max, ProjectProgress.chunk_len,
      maxListD, dataC4, max_def]
  exact ⟨hok, (c4_amended dataC4 0 [2, 3] [2, 1] hexp hok).1 0 (by norm_num)⟩
